import Mathlib

/-!
# gh-workflow-monitor: a shallow embedding and its verified properties

The development embeds the failure query service of the repository
(`pkg/github/client.go`, the older monolithic `github.go`), the command
handlers (`pkg/cli/cli.go`) and the configuration loader
(`internal/config/config.go`).

Modelling conventions.

* The hosting API (the go-github client) is an external collaborator.  It is
  a record of response functions, `Gateway`; every response may depend on the
  log of the calls issued so far, so the same request may be answered
  differently at different moments.  Every operation threads that log, which
  makes "no call was issued" a statement about the log.
* Go pointers that the code dereferences (`*repo.Name`, `*pr.Number`,
  `*run.Name`, `*run.HTMLURL`, `run.CreatedAt`, `pr.Head`, `pr.Head.Ref`) are
  `Option` fields; dereferencing `none` ends the operation with
  `Outcome.fault` (a Go run-time abort).  Slice elements themselves are
  taken to be non-nil.
* An instant (`time.Time`) is an integer count of nanoseconds since the epoch.
  The library call `AddDate(0, 0, d)` belongs to the environment of the
  program (`Gateway.AddDate`): it is calendar arithmetic in the local time
  zone.  `goAddDate` spells out what the library computes for a given zone.
* Go `int` values are mathematical integers; the negation `-days` wraps at 64
  bits (`wrapInt64`) and `strconv.Atoi` enforces the 64-bit range on its
  result.
* The unbounded paging loop `for { ... }` takes a fuel argument: `none` means
  the fuel ran out before the loop finished.
-/

namespace GhWorkflowMonitor

/-! ## Data model -/

/-- An instant, in nanoseconds since the epoch (Go `time.Time`). -/
abbrev Time := Int

/-- Nanoseconds in one day of 24 hours. -/
def nanosPerDay : Int := 86400 * 1000000000

/-- Nanoseconds in one second. -/
def nanosPerSecond : Int := 1000000000

/-- Seconds in one day of 24 hours. -/
def secondsPerDay : Int := 86400

/-- The value of a Go `int` expression whose mathematical value is `x`:
reduction to the range of 64-bit two's complement. -/
def wrapInt64 (x : Int) : Int := (x + 2 ^ 63) % 2 ^ 64 - 2 ^ 63

/-- What Go `Location.lookup(sec)` returns for a second since the epoch: the
offset of local time from UTC in seconds and the interval `[start, stop)` of
seconds during which that offset is in force. -/
structure ZoneSpan where
  offset : Int
  start : Int
  stop : Int
deriving DecidableEq, Repr

/-- A time zone (Go `*time.Location`), given by its `lookup`. -/
abbrev Zone := Int → ZoneSpan

/-- The wall-clock reading of `t` in the zone (the result of `t.Date()` and
`t.Clock()`), as the number of seconds it would denote in UTC. -/
def wallSeconds (zone : Zone) (t : Time) : Int :=
  t / nanosPerSecond + (zone (t / nanosPerSecond)).offset

/-- The offset Go `time.Date` settles on for the wall-clock reading `wall`:
the offset in force at `wall` read as UTC, unless the instant it yields lies
outside the interval of that offset, in which case the offset in force at
that instant. -/
def resolveOffset (zone : Zone) (wall : Int) : Int :=
  if (zone wall).offset ≠ 0 ∧
      (wall - (zone wall).offset < (zone wall).start ∨
        (zone wall).stop ≤ wall - (zone wall).offset) then
    (zone (wall - (zone wall).offset)).offset
  else (zone wall).offset

/-- Go `t.AddDate(0, 0, days)` for a time in the zone `zone`, as the library
computes it: `Date(year, month, day+days, hour, min, sec, nsec, loc)` on the
wall-clock reading of `t`.  The 64-bit wrap-around of the library's day and
second counts is left out, so the definition is the library's result for the
windows that do not overflow them. -/
def goAddDate (zone : Zone) (t : Time) (days : Int) : Time :=
  (wallSeconds zone t + days * secondsPerDay
      - resolveOffset zone (wallSeconds zone t + days * secondsPerDay)) * nanosPerSecond
    + t % nanosPerSecond

/-- The zone UTC. -/
def utcZone : Zone := fun _ => { offset := 0, start := -(2 ^ 63), stop := 2 ^ 63 - 1 }

/-- Go `t.Before(u)`: `t` is strictly earlier than `u`. -/
def Before (t u : Time) : Bool := decide (t < u)

/-- Go `t.After(u)`: `t` is strictly later than `u`. -/
def After (t u : Time) : Bool := decide (u < t)

/-- The record `WorkflowFailure` of `pkg/github/client.go` (and `github.go`). -/
structure WorkflowFailure where
  Repo : String
  PRNumber : Int
  Workflow : String
  StartedAt : Time
  URL : String
  PRURL : String
deriving DecidableEq, Repr

/-- The part of go-github `PullRequestBranch` the code reads. -/
structure PullRequestBranch where
  Ref : Option String
deriving DecidableEq, Repr

/-- The part of go-github `PullRequest` the code reads. -/
structure PullRequest where
  Number : Option Int
  Head : Option PullRequestBranch
deriving DecidableEq, Repr

/-- The part of go-github `WorkflowRun` the code reads.  A nil and an empty
`PullRequests` slice are both the empty list. -/
structure WorkflowRun where
  Name : Option String
  Conclusion : Option String
  CreatedAt : Option Time
  HTMLURL : Option String
  PullRequests : List PullRequest
deriving DecidableEq, Repr

/-- The part of go-github `Repository` the code reads. -/
structure Repository where
  Name : Option String
deriving DecidableEq, Repr

/-- The `ListWorkflowRunsOptions` values the code sends; `Branch` is `""` when
the code leaves it unset. -/
structure ListWorkflowRunsOptions where
  Branch : String
  Status : String
  PerPage : Nat
deriving DecidableEq, Repr

/-- One request sent to the hosting API. -/
inductive Call where
  | pullRequestsGet (owner repo : String) (number : Int)
  | listRepositoryWorkflowRuns (owner repo : String) (opts : ListWorkflowRunsOptions)
  | listByOrg (owner : String) (page : Int)
deriving DecidableEq, Repr

/-- The owner a request is addressed to. -/
def Call.owner : Call → String
  | .pullRequestsGet o _ _ => o
  | .listRepositoryWorkflowRuns o _ _ => o
  | .listByOrg o _ => o

/-- The repository a request is addressed to (none for the organization listing). -/
def Call.repo : Call → Option String
  | .pullRequestsGet _ r _ => some r
  | .listRepositoryWorkflowRuns _ r _ => some r
  | .listByOrg _ _ => none

/-- The request is a workflow-run listing. -/
def Call.isRunListing : Call → Bool
  | .listRepositoryWorkflowRuns _ _ _ => true
  | _ => false

/-- The hosting API as seen by the program.  Each response is a function of
the calls issued before it and of the request; `Except.error` carries the
text of the error the library returned.  `ListByOrg` answers with the page of
repositories and the `NextPage` cursor.  The record also holds the two
library calls on time the scan makes: `Now` is the clock (`time.Now()`) and
`AddDate t d` is `t.AddDate(0, 0, d)` in the local time zone. -/
structure Gateway where
  PullRequestsGet : List Call → String → String → Int → Except String PullRequest
  ListRepositoryWorkflowRuns :
    List Call → String → String → ListWorkflowRunsOptions → Except String (List WorkflowRun)
  ListByOrg : List Call → String → Int → Except String (List Repository × Int)
  Now : List Call → Time
  AddDate : Time → Int → Time

/-- Why `strconv.Atoi` rejected its input. -/
inductive AtoiError where
  | malformed
  | outOfRange
deriving DecidableEq, Repr

/-- The errors the program returns, one constructor per `fmt.Errorf` site. -/
inductive Error where
  /-- Message `repository name is required` (with a usage hint in `github.go`). -/
  | repositoryNameRequired
  /-- Message `invalid PR number: ...`. -/
  | invalidPRNumber (cause : AtoiError)
  /-- Message `error getting PR: ...`. -/
  | errorGettingPR (cause : String)
  /-- Message `error getting workflow runs: ...`. -/
  | errorGettingWorkflowRuns (cause : String)
  /-- Message `error listing repositories: ...`. -/
  | errorListingRepositories (cause : String)
  /-- Message `no repositories found for organization ...`. -/
  | noRepositoriesFound (owner : String)
  /-- Message `failed to check workflow failures: ...` (wraps the cause). -/
  | failedToCheck (cause : Error)
  /-- Message `failed to list workflow failures: ...` (wraps the cause). -/
  | failedToList (cause : Error)
  /-- Message `error listing failed workflows: ...`. -/
  | errorListingFailed (cause : Error)
  /-- Message `error loading .env file: ...`. -/
  | errorLoadingDotEnv (cause : String)
  /-- Message `... environment variable is required`. -/
  | envVarRequired (name : String)
deriving DecidableEq, Repr

/-- The run-time aborts of Go the modelled code can reach. -/
inductive Fault where
  | nilDereference
  | indexOutOfRange
deriving DecidableEq, Repr

/-- How a Go function call ends: a normal return with a nil error, a return
with an error, or a run-time abort. -/
inductive Outcome (α : Type) where
  | ret (a : α)
  | err (e : Error)
  | fault (f : Fault)
deriving DecidableEq, Repr

/-! ## The map from pull-request URL to failures -/

/-- Go `map[string][]WorkflowFailure`, kept as an association list whose keys
are in order of first insertion (Go leaves the iteration order unspecified). -/
abbrev FailureMap := List (String × List WorkflowFailure)

/-- Go `failures[k]` as an expression: the stored slice, or nil when absent. -/
def mapGet : FailureMap → String → List WorkflowFailure
  | [], _ => []
  | (k1, v1) :: rest, k => if k1 = k then v1 else mapGet rest k

/-- Go `failures[k] = v`. -/
def mapSet : FailureMap → String → List WorkflowFailure → FailureMap
  | [], k, v => [(k, v)]
  | (k1, v1) :: rest, k, v =>
    if k1 = k then (k, v) :: rest else (k1, v1) :: mapSet rest k v

/-- The keys of the map. -/
def mapKeys (m : FailureMap) : List String := m.map Prod.fst

/-- All stored records, bucket after bucket. -/
def mapRecords : FailureMap → List WorkflowFailure
  | [] => []
  | (_, v) :: rest => v ++ mapRecords rest

/-! ## `pkg/github/client.go` -/

/-- The receiver of the methods of `pkg/github/client.go`. -/
structure GitHubClient where
  owner : String
deriving DecidableEq, Repr

/-- Go `fmt.Sprintf("https://github.com/%s/%s/pull/%d", owner, repo, number)`. -/
def prURLOf (owner repo : String) (number : Int) : String :=
  "https://github.com/" ++ owner ++ "/" ++ repo ++ "/pull/" ++ toString number

/-- The options of the run listing of the organization scan
(`client.go` lines 127-132). -/
def scanOpts : ListWorkflowRunsOptions :=
  { Branch := "", Status := "failure", PerPage := 100 }

/-- The body of the inner loop of `ListAllFailedWorkflows`
(`client.go` lines 140-158) for one run of the repository named `repoName`. -/
def processRun (owner repoName : String) (cutoffTime : Time)
    (failures : FailureMap) (run : WorkflowRun) : Outcome FailureMap :=
  match run.CreatedAt with
  | none => .fault .nilDereference
  | some createdAt =>
    if Before createdAt cutoffTime then .ret failures
    else
      match run.PullRequests with
      | [] => .ret failures
      | pr :: _ =>
        match pr.Number with
        | none => .fault .nilDereference
        | some number =>
          let prURL := prURLOf owner repoName number
          match run.Name with
          | none => .fault .nilDereference
          | some workflow =>
            match run.HTMLURL with
            | none => .fault .nilDereference
            | some url =>
              let failure : WorkflowFailure :=
                { Repo := repoName, PRNumber := number, Workflow := workflow,
                  StartedAt := createdAt, URL := url, PRURL := prURL }
              .ret (mapSet failures prURL (mapGet failures prURL ++ [failure]))

/-- The inner loop `for _, run := range runs.WorkflowRuns` (lines 139-159). -/
def processRuns (owner repoName : String) (cutoffTime : Time) :
    FailureMap → List WorkflowRun → Outcome FailureMap
  | failures, [] => .ret failures
  | failures, run :: rest =>
    match processRun owner repoName cutoffTime failures run with
    | .ret failures1 => processRuns owner repoName cutoffTime failures1 rest
    | .err e => .err e
    | .fault f => .fault f

/-- The outer loop `for _, repo := range allRepos` (lines 126-160): the run
listing of every repository, a failed listing being skipped by `continue`. -/
def scanRepos (gw : Gateway) (owner : String) (cutoffTime : Time) :
    List Repository → FailureMap → List Call → Outcome FailureMap × List Call
  | [], failures, log => (.ret failures, log)
  | repo :: rest, failures, log =>
    match repo.Name with
    | none => (.fault .nilDereference, log)
    | some name =>
      let log1 := log ++ [Call.listRepositoryWorkflowRuns owner name scanOpts]
      match gw.ListRepositoryWorkflowRuns log owner name scanOpts with
      | .error _ => scanRepos gw owner cutoffTime rest failures log1
      | .ok runs =>
        match processRuns owner name cutoffTime failures runs with
        | .ret failures1 => scanRepos gw owner cutoffTime rest failures1 log1
        | .err e => (.err e, log1)
        | .fault f => (.fault f, log1)

/-- The paging loop of the repository listing (lines 102-117).  `page` is the
page to request next and `allRepos` the repositories gathered so far. -/
def collectRepos (gw : Gateway) (owner : String) :
    Nat → Int → List Repository → List Call →
      Option (Except String (List Repository) × List Call)
  | 0, _, _, _ => none
  | fuel + 1, page, allRepos, log =>
    let log1 := log ++ [Call.listByOrg owner page]
    match gw.ListByOrg log owner page with
    | .error e => some (.error e, log1)
    | .ok (repos, nextPage) =>
      if nextPage = 0 then some (.ok (allRepos ++ repos), log1)
      else collectRepos gw owner fuel nextPage (allRepos ++ repos) log1

/-- The cutoff of a scan, `time.Now().AddDate(0, 0, -days)` (line 123), the
clock being read after the calls `log1`. -/
def scanCutoff (gw : Gateway) (days : Int) (log1 : List Call) : Time :=
  gw.AddDate (gw.Now log1) (wrapInt64 (-days))

/-- The method `ListAllFailedWorkflows` of `pkg/github/client.go`
(lines 89-163).  `days` is the window, `fuel` bounds the paging loop and
`log` is the log of calls issued before. -/
def ListAllFailedWorkflows (gw : Gateway) (g : GitHubClient) (days : Int)
    (fuel : Nat) (log : List Call) : Option (Outcome FailureMap × List Call) :=
  match collectRepos gw g.owner fuel 1 [] log with
  | none => none
  | some (.error e, log1) => some (Outcome.err (.errorListingRepositories e), log1)
  | some (.ok allRepos, log1) =>
    if allRepos.length = 0 then some (Outcome.err (.noRepositoriesFound g.owner), log1)
    else
      let cutoffTime := scanCutoff gw days log1
      some (scanRepos gw g.owner cutoffTime allRepos [] log1)

/-! ## Go library functions used by the single-PR check -/

/-- The digit loop of Go `strconv.ParseUint(s, 10, 64)`: a character that is
not a decimal digit is a syntax error, a value of `2^64` or more a range
error, whichever the scan meets first. -/
def parseUint : List Char → Nat → Except AtoiError Nat
  | [], n => .ok n
  | c :: cs, n =>
    if c.isDigit then
      if 2 ^ 64 ≤ n * 10 + (c.toNat - 48) then .error .outOfRange
      else parseUint cs (n * 10 + (c.toNat - 48))
    else .error .malformed

/-- Go `strconv.Atoi` for a 64-bit `int`: an optional sign followed by one or
more decimal digits, the value lying in the range of `int64`. -/
def Atoi (s : String) : Except AtoiError Int :=
  match s.data with
  | [] => .error .malformed
  | c :: cs =>
    let neg : Bool := decide (c = '-')
    let digits : List Char := if c = '+' ∨ c = '-' then cs else c :: cs
    match digits with
    | [] => .error .malformed
    | d :: ds =>
      match parseUint (d :: ds) 0 with
      | .error e => .error e
      | .ok un =>
        if neg = false ∧ 2 ^ 63 ≤ un then .error .outOfRange
        else if neg = true ∧ 2 ^ 63 < un then .error .outOfRange
        else .ok (if neg then -(un : Int) else (un : Int))

/-- The pieces of a character list between the occurrences of `sep`. -/
def splitChars (sep : Char) : List Char → List (List Char)
  | [] => [[]]
  | c :: cs =>
    if c = sep then [] :: splitChars sep cs
    else
      match splitChars sep cs with
      | [] => [[c]]
      | piece :: pieces => (c :: piece) :: pieces

/-- Go `strings.Split(s, "/")`. -/
def splitSlash (s : String) : List String :=
  (splitChars '/' s.data).map String.mk

/-! ## The single-PR check of `pkg/github/client.go` -/

/-- The options of the run listing of the single-PR check
(`client.go` lines 68-74). -/
def checkOpts (branch : String) : ListWorkflowRunsOptions :=
  { Branch := branch, Status := "failure", PerPage := 100 }

/-- The method `GetFailedWorkflows` of `pkg/github/client.go` (lines 50-86). -/
def GetFailedWorkflows (gw : Gateway) (g : GitHubClient) (prNumber repo : String)
    (log : List Call) : Outcome Unit × List Call :=
  if repo = "" then (.err .repositoryNameRequired, log)
  else
    match Atoi prNumber with
    | .error e => (.err (.invalidPRNumber e), log)
    | .ok prNum =>
      let log1 := log ++ [Call.pullRequestsGet g.owner repo prNum]
      match gw.PullRequestsGet log g.owner repo prNum with
      | .error e => (.err (.errorGettingPR e), log1)
      | .ok pr =>
        match pr.Head with
        | none => (.fault .nilDereference, log1)
        | some head =>
          match head.Ref with
          | none => (.fault .nilDereference, log1)
          | some ref =>
            let log2 := log1 ++ [Call.listRepositoryWorkflowRuns g.owner repo (checkOpts ref)]
            match gw.ListRepositoryWorkflowRuns log1 g.owner repo (checkOpts ref) with
            | .error e => (.err (.errorGettingWorkflowRuns e), log2)
            | .ok _ => (.ret (), log2)

/-! ## Console output -/

/-- One `fmt.Printf` or `fmt.Println` of the modelled functions, named after
its format, with the values printed. -/
inductive Printed where
  /-- Prints `No failed workflow runs found for this PR.`. -/
  | noRunsForPR
  /-- Prints `Failed workflow runs for PR #%s in %s/%s:`. -/
  | checkHeader (prNumber owner repo : String)
  /-- The line of dashes. -/
  | separator
  /-- Prints `Workflow: %s`. -/
  | workflowLine (workflow : String)
  /-- Prints `Status: %s`. -/
  | statusLine (conclusion : String)
  /-- Prints `Started at: %s` or `Started: %s`, the time in RFC 3339 form. -/
  | startedLine (t : Time)
  /-- Prints `URL: %s`. -/
  | urlLine (url : String)
  /-- Prints `Fetching repositories...`. -/
  | fetching
  /-- Prints `No failed workflow runs found in the last %d days`. -/
  | noFailures (days : Int)
  /-- Prints `Found %d failed workflow runs in the last %d days:`. -/
  | foundRuns (n : Nat) (days : Int)
  /-- Prints `Found %d PRs with failed workflows in the last %d days:`. -/
  | foundPRs (n : Nat) (days : Int)
  /-- Prints `PR: %s`. -/
  | prLine (prURL : String)
  /-- Prints `Repository: %s`. -/
  | repositoryLine (repo : String)
  /-- Prints `Latest failure: %s (%s)`. -/
  | latestFailureLine (workflow : String) (t : Time)
  /-- Prints `Total failures: %d`. -/
  | totalFailuresLine (n : Nat)
deriving DecidableEq, Repr

/-! ## The single-PR check of `github.go` -/

namespace Main

/-- The receiver of the methods of `github.go`; `GetFailedWorkflows` assigns
to its `owner` field. -/
structure GitHubClient where
  owner : String
deriving DecidableEq, Repr

/-- The printing loop of `GetFailedWorkflows` (`github.go` lines 109-115). -/
def printRuns : List WorkflowRun → List Printed → Outcome Unit × List Printed
  | [], out => (.ret (), out)
  | run :: rest, out =>
    match run.Name with
    | none => (.fault .nilDereference, out)
    | some workflow =>
      let out1 := out ++ [Printed.workflowLine workflow]
      match run.Conclusion with
      | none => (.fault .nilDereference, out1)
      | some conclusion =>
        let out2 := out1 ++ [Printed.statusLine conclusion]
        match run.CreatedAt with
        | none => (.fault .nilDereference, out2)
        | some createdAt =>
          let out3 := out2 ++ [Printed.startedLine createdAt]
          match run.HTMLURL with
          | none => (.fault .nilDereference, out3)
          | some url => printRuns rest (out3 ++ [Printed.urlLine url, Printed.separator])

/-- The state a call of `github.go` leaves behind: how it ended, the receiver,
the log of gateway calls and the console output. -/
structure Result where
  outcome : Outcome Unit
  client : GitHubClient
  log : List Call
  out : List Printed

/-- The part of `GetFailedWorkflows` after the repository specifier is
parsed (`github.go` lines 75-117); `g` is the receiver as the parsing left it. -/
def checkParsed (gw : Gateway) (g : GitHubClient) (prNumber repo : String)
    (log : List Call) : Result :=
  match Atoi prNumber with
  | .error e => { outcome := .err (.invalidPRNumber e), client := g, log := log, out := [] }
  | .ok prNum =>
    let log1 := log ++ [Call.pullRequestsGet g.owner repo prNum]
    match gw.PullRequestsGet log g.owner repo prNum with
    | .error e => { outcome := .err (.errorGettingPR e), client := g, log := log1, out := [] }
    | .ok pr =>
      match pr.Head with
      | none => { outcome := .fault .nilDereference, client := g, log := log1, out := [] }
      | some head =>
        match head.Ref with
        | none => { outcome := .fault .nilDereference, client := g, log := log1, out := [] }
        | some ref =>
          let log2 := log1 ++ [Call.listRepositoryWorkflowRuns g.owner repo (checkOpts ref)]
          match gw.ListRepositoryWorkflowRuns log1 g.owner repo (checkOpts ref) with
          | .error e =>
            { outcome := .err (.errorGettingWorkflowRuns e), client := g, log := log2, out := [] }
          | .ok runs =>
            if runs.length = 0 then
              { outcome := .ret (), client := g, log := log2, out := [Printed.noRunsForPR] }
            else
              let printed := printRuns runs
                [Printed.checkHeader prNumber g.owner repo, Printed.separator]
              { outcome := printed.1, client := g, log := log2, out := printed.2 }

/-- The method `GetFailedWorkflows` of `github.go` (lines 57-118). -/
def GetFailedWorkflows (gw : Gateway) (g : GitHubClient) (prNumber repoInput : String)
    (log : List Call) : Result :=
  if repoInput = "" then
    { outcome := .err .repositoryNameRequired, client := g, log := log, out := [] }
  else
    match splitSlash repoInput with
    | [part0, part1] => checkParsed gw { g with owner := part0 } prNumber part1 log
    | _ => checkParsed gw g prNumber repoInput log

end Main

/-! ## `pkg/cli/cli.go` -/

namespace Cli

/-- One invocation of a method of the interface `github.Client`. -/
inductive ClientCall where
  | getFailedWorkflows (prNumber repo : String)
  | listAllFailedWorkflows (days : Int)
deriving DecidableEq, Repr

/-- The interface `github.Client`, implemented over a state `σ` (the hosting
API seen through a real client, the expectations of a mock).  The scan may
fail to terminate, which is `none`. -/
structure Client (σ : Type) where
  GetFailedWorkflows : String → String → σ → Outcome Unit × σ
  ListAllFailedWorkflows : Int → σ → Option (Outcome FailureMap × σ)

/-- What a handler leaves behind: how it ended, the state of the client, the
interface methods it invoked and the console output. -/
structure Handled (σ : Type) where
  outcome : Outcome Unit
  state : σ
  invoked : List ClientCall
  out : List Printed

/-- The four lines `HandleList` prints for one failure (lines 41-44). -/
def failureLines (failure : WorkflowFailure) : List Printed :=
  [Printed.repositoryLine failure.Repo, Printed.workflowLine failure.Workflow,
   Printed.startedLine failure.StartedAt, Printed.urlLine failure.URL]

/-- The loop `for prURL, prFailures := range failures` of `HandleList`
(lines 38-46); the map is walked in the order of the association list. -/
def listEntries : FailureMap → List Printed
  | [] => []
  | (prURL, prFailures) :: rest =>
    Printed.prLine prURL :: (prFailures.flatMap failureLines ++ listEntries rest)

/-- The function `HandleList` (lines 26-49). -/
def HandleList {σ : Type} (client : Client σ) (days : Int) (s : σ) : Option (Handled σ) :=
  match client.ListAllFailedWorkflows days s with
  | none => none
  | some (.err e, s1) =>
    some { outcome := .err (.failedToList e), state := s1,
           invoked := [ClientCall.listAllFailedWorkflows days], out := [] }
  | some (.fault f, s1) =>
    some { outcome := .fault f, state := s1,
           invoked := [ClientCall.listAllFailedWorkflows days], out := [] }
  | some (.ret failures, s1) =>
    if failures.length = 0 then
      some { outcome := .ret (), state := s1,
             invoked := [ClientCall.listAllFailedWorkflows days],
             out := [Printed.noFailures days] }
    else
      some { outcome := .ret (), state := s1,
             invoked := [ClientCall.listAllFailedWorkflows days],
             out := Printed.foundRuns failures.length days :: listEntries failures }

/-- The function `HandleCheck` (lines 52-63). -/
def HandleCheck {σ : Type} (client : Client σ) (prNumber repo : String) (s : σ) : Handled σ :=
  if repo = "" then
    { outcome := .err .repositoryNameRequired, state := s, invoked := [], out := [] }
  else
    match client.GetFailedWorkflows prNumber repo s with
    | (.err e, s1) =>
      { outcome := .err (.failedToCheck e), state := s1,
        invoked := [ClientCall.getFailedWorkflows prNumber repo], out := [] }
    | (.fault f, s1) =>
      { outcome := .fault f, state := s1,
        invoked := [ClientCall.getFailedWorkflows prNumber repo], out := [] }
    | (.ret _, s1) =>
      { outcome := .ret (), state := s1,
        invoked := [ClientCall.getFailedWorkflows prNumber repo], out := [] }

/-- Go `sort.Slice(prFailures, less)` with `less(i, j)` the test
`prFailures[i].StartedAt.After(prFailures[j].StartedAt)`: the failures by
start time, latest first.  Failures with equal start times keep their order
(Go guarantees no order among them). -/
def sortByStartDesc (prFailures : List WorkflowFailure) : List WorkflowFailure :=
  prFailures.insertionSort (fun a b => b.StartedAt ≤ a.StartedAt)

/-- The loop `for prURL, prFailures := range failures` of `handleList`
(lines 98-110), `out` being the output so far. -/
def summarize : FailureMap → List Printed → Outcome Unit × List Printed
  | [], out => (.ret (), out)
  | (prURL, prFailures) :: rest, out =>
    match sortByStartDesc prFailures with
    | [] => (.fault .indexOutOfRange, out)
    | latestFailure :: others =>
      summarize rest
        (out ++ [Printed.prLine prURL, Printed.repositoryLine latestFailure.Repo,
          Printed.latestFailureLine latestFailure.Workflow latestFailure.StartedAt,
          Printed.totalFailuresLine (latestFailure :: others).length, Printed.separator])

/-- The unexported function `handleList` (lines 80-113), which nothing calls. -/
def handleList {σ : Type} (client : Client σ) (days : Int) (s : σ) : Option (Handled σ) :=
  match client.ListAllFailedWorkflows days s with
  | none => none
  | some (.err e, s1) =>
    some { outcome := .err (.errorListingFailed e), state := s1,
           invoked := [ClientCall.listAllFailedWorkflows days], out := [Printed.fetching] }
  | some (.fault f, s1) =>
    some { outcome := .fault f, state := s1,
           invoked := [ClientCall.listAllFailedWorkflows days], out := [Printed.fetching] }
  | some (.ret failures, s1) =>
    if failures.length = 0 then
      some { outcome := .ret (), state := s1,
             invoked := [ClientCall.listAllFailedWorkflows days],
             out := [Printed.fetching, Printed.noFailures days] }
    else
      let printed := summarize failures
        [Printed.fetching, Printed.foundPRs failures.length days, Printed.separator]
      some { outcome := printed.1, state := s1,
             invoked := [ClientCall.listAllFailedWorkflows days], out := printed.2 }

/-- The unexported function `handleCheck` (lines 115-118), which nothing calls. -/
def handleCheck {σ : Type} (client : Client σ) (repo pr : String) (s : σ) : Outcome Unit × σ :=
  client.GetFailedWorkflows pr repo s

/-- The command line as parsed by the library (`ctx.Command()` with the
parsed options). -/
inductive Command where
  | list (days : Int)
  | check (pr repo : String)
deriving DecidableEq, Repr

/-- The function `Run` (lines 66-78) after the command line is parsed. -/
def Run {σ : Type} (client : Client σ) (cmd : Command) (s : σ) : Option (Handled σ) :=
  match cmd with
  | .list days => HandleList client days s
  | .check pr repo => some (HandleCheck client pr repo s)

/-- The client `pkg/github.NewClient` builds, as an implementation of the
interface: its state is the log of gateway calls. -/
def githubClient (gw : Gateway) (g : GitHubClient) (fuel : Nat) : Client (List Call) :=
  { GetFailedWorkflows := fun prNumber repo log => GetFailedWorkflows gw g prNumber repo log
    ListAllFailedWorkflows := fun days log => ListAllFailedWorkflows gw g days fuel log }

end Cli

/-! ## `internal/config/config.go` -/

namespace ConfigPkg

/-- The struct `Config`. -/
structure Config where
  GitHubToken : String
  GitHubOwner : String
deriving DecidableEq, Repr

/-- The process environment: the value of each variable that is set. -/
abbrev Env := String → Option String

/-- Go `os.Getenv`: the value of the variable, `""` when it is unset. -/
def Getenv (env : Env) (key : String) : String :=
  match env key with
  | some v => v
  | none => ""

/-- The library call `godotenv.Load()`.  `file` is the outcome of reading and
parsing the file `.env`: an error text, or the variables it defines.  On
success every variable the file defines that is not set in the process
environment becomes set; a variable already set keeps its value. -/
def godotenvLoad (file : Except String (String → Option String)) (env : Env) :
    Except String Env :=
  match file with
  | .error e => .error e
  | .ok defined =>
    .ok (fun key =>
      match env key with
      | some v => some v
      | none => defined key)

/-- The function `Load` (lines 17-36). -/
def Load (file : Except String (String → Option String)) (env : Env) : Except Error Config :=
  match godotenvLoad file env with
  | .error e => .error (.errorLoadingDotEnv e)
  | .ok env1 =>
    let token := Getenv env1 "GITHUB_TOKEN"
    if token = "" then .error (.envVarRequired "GITHUB_TOKEN")
    else
      let owner := Getenv env1 "GITHUB_OWNER"
      if owner = "" then .error (.envVarRequired "GITHUB_OWNER")
      else .ok { GitHubToken := token, GitHubOwner := owner }

end ConfigPkg

namespace Main

/-- The function `NewGitHubClient` of `github.go` (lines 30-55), as far as the
receiver it builds is concerned. -/
def NewGitHubClient (file : Except String (String → Option String)) (env : ConfigPkg.Env) :
    Except Error GitHubClient :=
  match ConfigPkg.godotenvLoad file env with
  | .error e => .error (.errorLoadingDotEnv e)
  | .ok env1 =>
    let token := ConfigPkg.Getenv env1 "GITHUB_TOKEN"
    if token = "" then .error (.envVarRequired "GITHUB_TOKEN")
    else
      let owner := ConfigPkg.Getenv env1 "GITHUB_OWNER"
      if owner = "" then .error (.envVarRequired "GITHUB_OWNER")
      else .ok { owner := owner }

end Main

/-! ## The records of a scan, as the specification describes them -/

/-- The record the scan builds for one run of the repository `repoName`, in
the words of the specification: a run created strictly before the cutoff is
discarded, a run without an associated pull request is discarded, otherwise
the record is built from the first associated pull request. -/
def recordOfRun (owner repoName : String) (cutoffTime : Time) (run : WorkflowRun) :
    Option WorkflowFailure :=
  match run.CreatedAt, run.PullRequests.head?, run.Name, run.HTMLURL with
  | some createdAt, some pr, some workflow, some url =>
    match pr.Number with
    | some number =>
      if createdAt < cutoffTime then none
      else some
        { Repo := repoName, PRNumber := number, Workflow := workflow,
          StartedAt := createdAt, URL := url,
          PRURL := prURLOf owner repoName number }
    | none => none
  | _, _, _, _ => none

/-- The records built for the repositories `repos`, in the order the
specification gives: repositories in listing order and, within a repository,
runs in the order the gateway returned them; a repository whose run listing
failed contributes nothing. -/
def builtRecords (gw : Gateway) (owner : String) (cutoffTime : Time) :
    List Repository → List Call → List WorkflowFailure
  | [], _ => []
  | repo :: rest, log =>
    match repo.Name with
    | none => []
    | some name =>
      let log1 := log ++ [Call.listRepositoryWorkflowRuns owner name scanOpts]
      (match gw.ListRepositoryWorkflowRuns log owner name scanOpts with
        | .error _ => []
        | .ok runs => runs.filterMap (recordOfRun owner name cutoffTime))
        ++ builtRecords gw owner cutoffTime rest log1

/-- The records built during one organization scan started with `log`. -/
def builtDuringScan (gw : Gateway) (g : GitHubClient) (days : Int) (fuel : Nat)
    (log : List Call) : List WorkflowFailure :=
  match collectRepos gw g.owner fuel 1 [] log with
  | some (.ok allRepos, log1) =>
    builtRecords gw g.owner (scanCutoff gw days log1) allRepos log1
  | _ => []

/-- The grouping invariant of the scan loop: `m` groups exactly the records
`built`, each bucket being the subsequence of `built` with the bucket key. -/
def Grouped (m : FailureMap) (built : List WorkflowFailure) : Prop :=
  (mapKeys m).Nodup ∧
  (∀ k, mapGet m k = built.filter (fun r => decide (r.PRURL = k))) ∧
  (∀ k, k ∈ mapKeys m ↔ ∃ r ∈ built, r.PRURL = k) ∧
  List.Perm (mapRecords m) built

/-! ## Notions used in the statements -/

/-- The total number of records stored in the map. -/
def mapSize (m : FailureMap) : Nat := (mapRecords m).length

/-- The pointers `processRun` dereferences for `run` are all set: the creation
time always and, for a run inside the window with an associated pull request,
the number of the first pull request, the workflow name and the run URL. -/
def DerefsPresent (cutoffTime : Time) (run : WorkflowRun) : Bool :=
  match run.CreatedAt with
  | none => false
  | some createdAt =>
    if createdAt < cutoffTime then true
    else
      match run.PullRequests with
      | [] => true
      | pr :: _ => pr.Number.isSome && run.Name.isSome && run.HTMLURL.isSome

/-- The gateway `gw` with every failed run listing replaced by a successful
listing of no runs. -/
def skipFailed (gw : Gateway) : Gateway :=
  { gw with
    ListRepositoryWorkflowRuns := fun log owner repo opts =>
      match gw.ListRepositoryWorkflowRuns log owner repo opts with
      | .error _ => .ok []
      | .ok runs => .ok runs }

/-- The five lines `handleList` prints for one pull request whose latest
failure is `latest` and which has `count` failures. -/
def summaryLines (prURL : String) (latest : WorkflowFailure) (count : Nat) : List Printed :=
  [Printed.prLine prURL, Printed.repositoryLine latest.Repo,
   Printed.latestFailureLine latest.Workflow latest.StartedAt,
   Printed.totalFailuresLine count, Printed.separator]

/-- The gateway answers the repository listing of `owner`, asked from `page`
on after the calls `log`, with the successive pages `pages` (each with its
`NextPage` cursor): every request succeeds, every cursor but the last names
the next page and the last is 0. -/
def ServesPages (gw : Gateway) (owner : String) :
    Int → List Call → List (List Repository × Int) → Prop
  | _, _, [] => False
  | page, log, (repos, nextPage) :: more =>
    gw.ListByOrg log owner page = .ok (repos, nextPage) ∧
    (match more with
      | [] => nextPage = 0
      | _ :: _ =>
        nextPage ≠ 0 ∧
        ServesPages gw owner nextPage (log ++ [Call.listByOrg owner page]) more)

/-- The listing requests for the pages `pages`, the first one for `page`. -/
def pageCalls (owner : String) : Int → List (List Repository × Int) → List Call
  | _, [] => []
  | page, (_, nextPage) :: more => Call.listByOrg owner page :: pageCalls owner nextPage more

/-- All repositories of the pages, in listing order. -/
def allListed (pages : List (List Repository × Int)) : List Repository :=
  pages.flatMap Prod.fst

/-- Every pointer the scan of `repos` dereferences is set: every repository
has a name, and every run that the run listings return during the scan
(started after the calls `log`) satisfies `DerefsPresent`. -/
def ScanPresent (gw : Gateway) (owner : String) (cutoffTime : Time) :
    List Repository → List Call → Bool
  | [], _ => true
  | repo :: rest, log =>
    match repo.Name with
    | none => false
    | some name =>
      (match gw.ListRepositoryWorkflowRuns log owner name scanOpts with
        | .error _ => true
        | .ok runs => runs.all (DerefsPresent cutoffTime)) &&
      ScanPresent gw owner cutoffTime rest
        (log ++ [Call.listRepositoryWorkflowRuns owner name scanOpts])

/-- The zone America/New_York from 25 October 1998 to 2 April 2000: standard
time (UTC-5) until 4 April 1999 07:00 UTC, daylight time (UTC-4) until
31 October 1999 06:00 UTC, standard time after it. -/
def newYork1999 : Zone := fun sec =>
  if sec < 923209200 then { offset := -18000, start := 909295200, stop := 923209200 }
  else if sec < 941349600 then { offset := -14400, start := 923209200, stop := 941349600 }
  else { offset := -18000, start := 941349600, stop := 954658800 }

/-! ## Concrete gateways used to exercise the definitions -/

/-- One day in nanoseconds, as a time offset. -/
def day : Time := nanosPerDay

/-- A failed run created at `t` with the associated pull requests `prs`. -/
def runAt (t : Time) (workflow : String) (prs : List Int) : WorkflowRun :=
  { Name := some workflow, Conclusion := some "failure", CreatedAt := some t,
    HTMLURL := some ("https://github.com/acme/runs/" ++ workflow),
    PullRequests := prs.map (fun n => { Number := some n, Head := none }) }

/-- An organization with the repositories `A` and `B` on one page.  The clock
reads day 100.  `A` has five failed runs: two on pull request 5 (one of them
also linked to pull request 9), one on pull request 7, one without a pull
request and one ten days old; the run listing of `B` fails. -/
def gwDemo : Gateway :=
  { PullRequestsGet := fun _ _ _ _ => .error "not found"
    ListRepositoryWorkflowRuns := fun _ _ repo _ =>
      if repo = "A" then
        .ok [runAt (98 * day) "build" [5, 9], runAt (99 * day) "lint" [7],
             runAt (97 * day) "test" [5], runAt (99 * day) "nightly" [],
             runAt (90 * day) "build" [5]]
      else .error "server error"
    ListByOrg := fun _ _ _ => .ok ([{ Name := some "A" }, { Name := some "B" }], 0)
    Now := fun _ => 100 * day
    AddDate := goAddDate utcZone }

/-- The mapping the scan of `gwDemo` is expected to return. -/
def demoMap : FailureMap :=
  [("https://github.com/acme/A/pull/5",
      [{ Repo := "A", PRNumber := 5, Workflow := "build", StartedAt := 98 * day,
         URL := "https://github.com/acme/runs/build",
         PRURL := "https://github.com/acme/A/pull/5" },
       { Repo := "A", PRNumber := 5, Workflow := "test", StartedAt := 97 * day,
         URL := "https://github.com/acme/runs/test",
         PRURL := "https://github.com/acme/A/pull/5" }]),
   ("https://github.com/acme/A/pull/7",
      [{ Repo := "A", PRNumber := 7, Workflow := "lint", StartedAt := 99 * day,
         URL := "https://github.com/acme/runs/lint",
         PRURL := "https://github.com/acme/A/pull/7" }])]

/-- The calls the scan of `gwDemo` is expected to issue. -/
def demoLog : List Call :=
  [Call.listByOrg "acme" 1,
   Call.listRepositoryWorkflowRuns "acme" "A" scanOpts,
   Call.listRepositoryWorkflowRuns "acme" "B" scanOpts]

/-- The scenario of the specification: repositories `A` and `B`; `A` has one
failed run, two days old, linked to pull request 5; the run listing of `B`
fails.  The clock reads day 100. -/
def gwScenario : Gateway :=
  { PullRequestsGet := fun _ _ _ _ => .error "not found"
    ListRepositoryWorkflowRuns := fun _ _ repo _ =>
      if repo = "A" then .ok [runAt (98 * day) "build" [5]] else .error "server error"
    ListByOrg := fun _ _ _ => .ok ([{ Name := some "A" }, { Name := some "B" }], 0)
    Now := fun _ => 100 * day
    AddDate := goAddDate utcZone }

/-- A run inside the window, linked to pull request 5, for which the API sent
no workflow name. -/
def unnamedRun : WorkflowRun :=
  { Name := none, Conclusion := some "failure", CreatedAt := some (99 * day),
    HTMLURL := some "https://github.com/acme/runs/1",
    PullRequests := [{ Number := some 5, Head := none }] }

/-- An organization with the single repository `A`, whose only failed run is
`unnamedRun`.  The clock reads day 100. -/
def gwUnnamed : Gateway :=
  { PullRequestsGet := fun _ _ _ _ => .error "not found"
    ListRepositoryWorkflowRuns := fun _ _ _ _ => .ok [unnamedRun]
    ListByOrg := fun _ _ _ => .ok ([{ Name := some "A" }], 0)
    Now := fun _ => 100 * day
    AddDate := goAddDate utcZone }

/-- The mapping the scan of `gwScenario` is expected to return. -/
def scenarioMap : FailureMap :=
  [("https://github.com/acme/A/pull/5",
      [{ Repo := "A", PRNumber := 5, Workflow := "build", StartedAt := 98 * day,
         URL := "https://github.com/acme/runs/build",
         PRURL := "https://github.com/acme/A/pull/5" }])]

/-- A gateway that knows pull request 0 of every repository: its head branch
is `main` and no run failed on it. -/
def gwZero : Gateway :=
  { PullRequestsGet := fun _ _ _ number =>
      if number = 0 then .ok { Number := some 0, Head := some { Ref := some "main" } }
      else .error "not found"
    ListRepositoryWorkflowRuns := fun _ _ _ _ => .ok []
    ListByOrg := fun _ _ _ => .ok ([], 0)
    Now := fun _ => 100 * day
    AddDate := goAddDate utcZone }

/-- An organization whose repository listing has two pages, both empty. -/
def gwEmptyOrg : Gateway :=
  { PullRequestsGet := fun _ _ _ _ => .error "not found"
    ListRepositoryWorkflowRuns := fun _ _ _ _ => .ok []
    ListByOrg := fun _ _ page => if page = 1 then .ok ([], 2) else .ok ([], 0)
    Now := fun _ => 100 * day
    AddDate := goAddDate utcZone }

/-- An organization with the single repository `A`, which has no failed run. -/
def gwQuiet : Gateway :=
  { PullRequestsGet := fun _ _ _ _ => .error "not found"
    ListRepositoryWorkflowRuns := fun _ _ _ _ => .ok []
    ListByOrg := fun _ _ _ => .ok ([{ Name := some "A" }], 0)
    Now := fun _ => 100 * day
    AddDate := goAddDate utcZone }

/-- A process environment in which both required variables are set. -/
def envBoth : ConfigPkg.Env := fun key =>
  if key = "GITHUB_TOKEN" then some "t0ken"
  else if key = "GITHUB_OWNER" then some "acme"
  else none

/-- A process environment in which only the owner is set. -/
def envOwnerOnly : ConfigPkg.Env := fun key =>
  if key = "GITHUB_OWNER" then some "acme" else none

/-- A `.env` file that defines the token (and another owner). -/
def dotEnvFile : String → Option String := fun key =>
  if key = "GITHUB_TOKEN" then some "fromfile"
  else if key = "GITHUB_OWNER" then some "other"
  else none

/-- An organization with the single repository `A`, whose two failed runs on
pull request 5 are returned oldest first.  The clock reads day 100. -/
def gwAscending : Gateway :=
  { PullRequestsGet := fun _ _ _ _ => .error "not found"
    ListRepositoryWorkflowRuns := fun _ _ _ _ =>
      .ok [runAt (97 * day) "test" [5], runAt (98 * day) "build" [5]]
    ListByOrg := fun _ _ _ => .ok ([{ Name := some "A" }], 0)
    Now := fun _ => 100 * day
    AddDate := goAddDate utcZone }

/-- A failed run on pull request 5 created at the second `sec` since the
epoch. -/
def runAtSecond (sec : Int) : WorkflowRun :=
  runAt (sec * nanosPerSecond) "build" [5]

/-- A machine in New York on 31 October 1999 at 06:30:00 UTC, which is 01:30
standard time, in the hour the clocks have just repeated.  The organization
has the single repository `A`, with one failed run created at 06:00:00 UTC,
half an hour before. -/
def gwRepeatedHour : Gateway :=
  { PullRequestsGet := fun _ _ _ _ => .error "not found"
    ListRepositoryWorkflowRuns := fun _ _ _ _ => .ok [runAtSecond 941349600]
    ListByOrg := fun _ _ _ => .ok ([{ Name := some "A" }], 0)
    Now := fun _ => 941351400 * nanosPerSecond
    AddDate := goAddDate newYork1999 }

/-- A machine in New York on 1 January 2000 at 00:00:00 UTC (31 December
19:00 standard time).  The organization has the single repository `A`, with
one failed run created on 2 October 1999 at 23:30:00 UTC. -/
def gwAutumn : Gateway :=
  { PullRequestsGet := fun _ _ _ _ => .error "not found"
    ListRepositoryWorkflowRuns := fun _ _ _ _ => .ok [runAtSecond 938907000]
    ListByOrg := fun _ _ _ => .ok ([{ Name := some "A" }], 0)
    Now := fun _ => 946684800 * nanosPerSecond
    AddDate := goAddDate newYork1999 }

/-- An organization with the repositories `B` and `A`, in this order: the run
listing of `B` fails, the one of `A` returns `unnamedRun`.  The clock reads
day 100. -/
def gwFailingThenUnnamed : Gateway :=
  { PullRequestsGet := fun _ _ _ _ => .error "not found"
    ListRepositoryWorkflowRuns := fun _ _ repo _ =>
      if repo = "A" then .ok [unnamedRun] else .error "server error"
    ListByOrg := fun _ _ _ => .ok ([{ Name := some "B" }, { Name := some "A" }], 0)
    Now := fun _ => 100 * day
    AddDate := goAddDate utcZone }

/-- An organization whose listing has two pages: the repository `A` on the
first, nothing on the second; `A` has no failed run. -/
def gwSecondPageEmpty : Gateway :=
  { PullRequestsGet := fun _ _ _ _ => .error "not found"
    ListRepositoryWorkflowRuns := fun _ _ _ _ => .ok []
    ListByOrg := fun _ _ page =>
      if page = 1 then .ok ([{ Name := some "A" }], 2) else .ok ([], 0)
    Now := fun _ => 100 * day
    AddDate := goAddDate utcZone }

/-- The record the scan builds for `runAtSecond sec` in repository `A` of the
owner `acme`. -/
def recordAtSecond (sec : Int) : WorkflowFailure :=
  { Repo := "A", PRNumber := 5, Workflow := "build", StartedAt := sec * nanosPerSecond,
    URL := "https://github.com/acme/runs/build",
    PRURL := "https://github.com/acme/A/pull/5" }

/-- The calls of a scan of an organization with the single repository `A`. -/
def singleRepoLog : List Call :=
  [Call.listByOrg "acme" 1, Call.listRepositoryWorkflowRuns "acme" "A" scanOpts]

/-! ## Properties of the map operations -/

theorem mapGet_mapSet (m : FailureMap) (k k2 : String) (v : List WorkflowFailure) :
    mapGet (mapSet m k v) k2 = if k = k2 then v else mapGet m k2 := by
  induction m with
  | nil => simp [mapSet, mapGet]
  | cons p rest ih =>
    obtain ⟨k1, v1⟩ := p
    by_cases h1 : k1 = k
    · subst h1
      by_cases h2 : k1 = k2
      · simp [mapSet, mapGet, h2]
      · simp [mapSet, mapGet, h2]
    · have h1s : ¬ k = k1 := fun h => h1 h.symm
      by_cases h2 : k1 = k2
      · subst h2
        simp [mapSet, mapGet, h1, h1s]
      · simp [mapSet, mapGet, h1, h2, ih]

theorem mapKeys_mapSet (m : FailureMap) (k : String) (v : List WorkflowFailure) :
    mapKeys (mapSet m k v) = if k ∈ mapKeys m then mapKeys m else mapKeys m ++ [k] := by
  induction m with
  | nil => simp [mapSet, mapKeys]
  | cons p rest ih =>
    obtain ⟨k1, v1⟩ := p
    by_cases h1 : k1 = k
    · subst h1
      simp [mapSet, mapKeys]
    · have h1s : ¬ k = k1 := fun h => h1 h.symm
      simp only [mapKeys] at ih
      by_cases hk : k ∈ List.map Prod.fst rest
      · simp [mapSet, mapKeys, h1, h1s, hk, ih]
      · simp [mapSet, mapKeys, h1, h1s, hk, ih]

theorem mapRecords_mapSet_perm (m : FailureMap) (k : String) (r : WorkflowFailure) :
    List.Perm (mapRecords (mapSet m k (mapGet m k ++ [r]))) (mapRecords m ++ [r]) := by
  induction m with
  | nil => simp [mapSet, mapGet, mapRecords]
  | cons p rest ih =>
    obtain ⟨k1, v1⟩ := p
    by_cases h1 : k1 = k
    · subst h1
      simp only [mapSet, mapGet, mapRecords, if_true]
      rw [List.append_assoc, List.append_assoc]
      exact List.Perm.append_left _ List.perm_append_comm
    · simp only [mapSet, mapGet, mapRecords, h1, if_false]
      rw [List.append_assoc]
      exact List.Perm.append_left _ ih

theorem mem_mapGet_of_nodup (m : FailureMap) (h : (mapKeys m).Nodup) (k : String)
    (v : List WorkflowFailure) (hm : (k, v) ∈ m) : mapGet m k = v := by
  induction m with
  | nil => simp at hm
  | cons p rest ih =>
    obtain ⟨k1, v1⟩ := p
    simp only [mapKeys, List.map_cons, List.nodup_cons] at h
    rcases List.mem_cons.mp hm with heq | hin
    · cases heq
      simp [mapGet]
    · have hne : k1 ≠ k := by
        intro hk
        subst hk
        exact h.1 (List.mem_map_of_mem Prod.fst hin)
      simp only [mapGet, hne, if_false]
      exact ih h.2 hin

theorem grouped_nil : Grouped [] [] := by
  refine ⟨by simp [mapKeys], fun k => by simp [mapGet], fun k => by simp [mapKeys], ?_⟩
  simp [mapRecords]

theorem grouped_append (m : FailureMap) (built : List WorkflowFailure)
    (r : WorkflowFailure) (h : Grouped m built) :
    Grouped (mapSet m r.PRURL (mapGet m r.PRURL ++ [r])) (built ++ [r]) := by
  obtain ⟨hnd, hget, hkeys, hperm⟩ := h
  refine ⟨?_, ?_, ?_, ?_⟩
  · rw [mapKeys_mapSet]
    by_cases hk : r.PRURL ∈ mapKeys m
    · simpa [hk] using hnd
    · simp only [hk, if_false]
      exact List.Nodup.append hnd (List.nodup_singleton _) (by simpa using hk)
  · intro k
    rw [mapGet_mapSet, List.filter_append]
    by_cases hk : r.PRURL = k
    · subst hk
      simp [hget]
    · simp [hk, hget]
  · intro k
    rw [mapKeys_mapSet]
    by_cases hk : r.PRURL ∈ mapKeys m
    · simp only [hk, if_true, hkeys, List.mem_append, List.mem_singleton]
      constructor
      · rintro ⟨x, hx, hxk⟩
        exact ⟨x, Or.inl hx, hxk⟩
      · rintro ⟨x, hx | hx, hxk⟩
        · exact ⟨x, hx, hxk⟩
        · subst hx
          subst hxk
          exact (hkeys _).mp hk
    · simp only [hk, if_false, List.mem_append, List.mem_singleton, hkeys]
      constructor
      · rintro (⟨x, hx, hxk⟩ | hk2)
        · exact ⟨x, Or.inl hx, hxk⟩
        · exact ⟨r, Or.inr rfl, hk2.symm⟩
      · rintro ⟨x, hx | hx, hxk⟩
        · exact Or.inl ⟨x, hx, hxk⟩
        · subst hx
          exact Or.inr hxk.symm
  · exact (mapRecords_mapSet_perm m r.PRURL r).trans (List.Perm.append_right _ hperm)

/-! ## The scan loop groups the records it builds -/

theorem processRun_ret (owner repoName : String) (cutoffTime : Time)
    (m m2 : FailureMap) (run : WorkflowRun)
    (h : processRun owner repoName cutoffTime m run = .ret m2) :
    (recordOfRun owner repoName cutoffTime run = none ∧ m2 = m) ∨
    (∃ r, recordOfRun owner repoName cutoffTime run = some r ∧
      m2 = mapSet m r.PRURL (mapGet m r.PRURL ++ [r])) := by
  obtain ⟨name, conclusion, createdAt, url, prs⟩ := run
  cases createdAt with
  | none => simp [processRun] at h
  | some t =>
    by_cases hb : t < cutoffTime
    · left
      simp only [processRun, Before, hb, decide_True, if_true, Outcome.ret.injEq] at h
      refine ⟨?_, h.symm⟩
      cases prs <;> cases name <;> cases url <;> simp [recordOfRun]
      all_goals (split <;> simp [hb])
    · cases prs with
      | nil =>
        left
        simp only [processRun, Before, hb, decide_False, Outcome.ret.injEq] at h
        exact ⟨by simp [recordOfRun], by simpa using h.symm⟩
      | cons pr rest =>
        obtain ⟨number, head⟩ := pr
        cases number with
        | none => simp [processRun, Before, hb] at h
        | some n =>
          cases name with
          | none => simp [processRun, Before, hb] at h
          | some w =>
            cases url with
            | none => simp [processRun, Before, hb] at h
            | some u =>
              right
              simp [processRun, Before, hb] at h
              refine ⟨WorkflowFailure.mk repoName n w t u (prURLOf owner repoName n), ?_, h.symm⟩
              simp [recordOfRun, hb]

theorem processRun_grouped (owner repoName : String) (cutoffTime : Time)
    (m m2 : FailureMap) (run : WorkflowRun) (built : List WorkflowFailure)
    (h : processRun owner repoName cutoffTime m run = .ret m2) (hg : Grouped m built) :
    Grouped m2 (built ++ (recordOfRun owner repoName cutoffTime run).toList) := by
  rcases processRun_ret owner repoName cutoffTime m m2 run h with ⟨hr, hm⟩ | ⟨r, hr, hm⟩
  · rw [hr, hm]
    simpa using hg
  · rw [hr, hm]
    exact grouped_append m built r hg

theorem processRuns_grouped (owner repoName : String) (cutoffTime : Time)
    (runs : List WorkflowRun) (m m2 : FailureMap) (built : List WorkflowFailure)
    (h : processRuns owner repoName cutoffTime m runs = .ret m2) (hg : Grouped m built) :
    Grouped m2 (built ++ runs.filterMap (recordOfRun owner repoName cutoffTime)) := by
  induction runs generalizing m built with
  | nil =>
    simp only [processRuns, Outcome.ret.injEq] at h
    subst h
    simpa using hg
  | cons run rest ih =>
    simp only [processRuns] at h
    cases hp : processRun owner repoName cutoffTime m run with
    | ret m1 =>
      rw [hp] at h
      have h1 := processRun_grouped owner repoName cutoffTime m m1 run built hp hg
      have h2 := ih m1 _ h h1
      cases hr : recordOfRun owner repoName cutoffTime run with
      | none => simpa [List.filterMap_cons, hr] using h2
      | some r => simpa [List.filterMap_cons, hr] using h2
    | err e => rw [hp] at h; simp at h
    | fault f => rw [hp] at h; simp at h

theorem scanRepos_grouped (gw : Gateway) (owner : String) (cutoffTime : Time)
    (repos : List Repository) (m m2 : FailureMap) (log log2 : List Call)
    (built : List WorkflowFailure)
    (h : scanRepos gw owner cutoffTime repos m log = (.ret m2, log2))
    (hg : Grouped m built) :
    Grouped m2 (built ++ builtRecords gw owner cutoffTime repos log) := by
  induction repos generalizing m log built with
  | nil =>
    simp only [scanRepos, Prod.mk.injEq, Outcome.ret.injEq] at h
    rw [← h.1]
    simpa [builtRecords] using hg
  | cons repo rest ih =>
    obtain ⟨name⟩ := repo
    cases name with
    | none => simp [scanRepos] at h
    | some name =>
      simp only [scanRepos] at h
      simp only [builtRecords]
      cases hl : gw.ListRepositoryWorkflowRuns log owner name scanOpts with
      | error e =>
        rw [hl] at h
        simpa using ih m _ built h hg
      | ok runs =>
        rw [hl] at h
        dsimp only at h ⊢
        cases hp : processRuns owner name cutoffTime m runs with
        | ret m1 =>
          rw [hp] at h
          have h1 := processRuns_grouped owner name cutoffTime runs m m1 built hp hg
          have h2 := ih m1 _ _ h h1
          simpa [List.append_assoc] using h2
        | err e => rw [hp] at h; simp at h
        | fault f => rw [hp] at h; simp at h

theorem scan_grouped (gw : Gateway) (g : GitHubClient) (days : Int) (fuel : Nat)
    (log log2 : List Call) (m : FailureMap)
    (h : ListAllFailedWorkflows gw g days fuel log = some (.ret m, log2)) :
    Grouped m (builtDuringScan gw g days fuel log) := by
  unfold ListAllFailedWorkflows at h
  unfold builtDuringScan
  cases hc : collectRepos gw g.owner fuel 1 [] log with
  | none => rw [hc] at h; simp at h
  | some res =>
    obtain ⟨r, log1⟩ := res
    cases r with
    | error e => rw [hc] at h; simp at h
    | ok allRepos =>
      rw [hc] at h
      by_cases hz : allRepos.length = 0
      · simp [hz] at h
      · simp only [hz, if_false, Option.some.injEq] at h
        simpa using scanRepos_grouped gw g.owner _ allRepos [] m log1 log2 [] h grouped_nil

/-- C1: after a successful organization scan, the sequence stored under each
key of the returned mapping is exactly the subsequence of the records built
during the scan (repositories in listing order, runs in gateway order) whose
PRURL is that key; the keys are the PRURLs of the built records, each key
occurs once, no bucket holds a record with another PRURL, and the buckets
together hold every built record exactly as often as it was built. -/
theorem scan_buckets_partition_built_records (gw : Gateway) (g : GitHubClient)
    (days : Int) (fuel : Nat) (log log2 : List Call) (m : FailureMap)
    (h : ListAllFailedWorkflows gw g days fuel log = some (.ret m, log2)) :
    (∀ k v, (k, v) ∈ m →
      v = (builtDuringScan gw g days fuel log).filter (fun r => decide (r.PRURL = k))) ∧
    (∀ k, mapGet m k =
      (builtDuringScan gw g days fuel log).filter (fun r => decide (r.PRURL = k))) ∧
    (mapKeys m).Nodup ∧
    (∀ k, k ∈ mapKeys m ↔ ∃ r ∈ builtDuringScan gw g days fuel log, r.PRURL = k) ∧
    (∀ k v, (k, v) ∈ m → ∀ r ∈ v, r.PRURL = k) ∧
    List.Perm (mapRecords m) (builtDuringScan gw g days fuel log) ∧
    (∀ r, (mapRecords m).count r = (builtDuringScan gw g days fuel log).count r) := by
  obtain ⟨hnd, hget, hkeys, hperm⟩ := scan_grouped gw g days fuel log log2 m h
  have hbucket : ∀ k v, (k, v) ∈ m →
      v = (builtDuringScan gw g days fuel log).filter (fun r => decide (r.PRURL = k)) := by
    intro k v hm
    rw [← hget k, mem_mapGet_of_nodup m hnd k v hm]
  refine ⟨hbucket, hget, hnd, hkeys, ?_, hperm, fun r => hperm.count_eq r⟩
  intro k v hm r hr
  rw [hbucket k v hm] at hr
  simpa using (List.mem_filter.mp hr).2

/-- C1 (instance): the scan of the demonstration organization succeeds and its
two buckets together hold exactly the records built during the scan. -/
theorem scan_buckets_partition_built_records_witness :
    ListAllFailedWorkflows gwDemo { owner := "acme" } 7 3 [] =
      some (.ret demoMap, demoLog) ∧
    List.Perm (mapRecords demoMap) (builtDuringScan gwDemo { owner := "acme" } 7 3 []) :=
  ⟨by decide,
    (scan_buckets_partition_built_records gwDemo { owner := "acme" } 7 3 [] demoLog demoMap
      (by decide)).2.2.2.2.2.1⟩

/-! ## The time window -/

theorem recordOfRun_not_before (owner repoName : String) (cutoffTime : Time)
    (run : WorkflowRun) (r : WorkflowFailure)
    (h : recordOfRun owner repoName cutoffTime run = some r) :
    ¬ r.StartedAt < cutoffTime := by
  obtain ⟨name, conclusion, createdAt, url, prs⟩ := run
  cases createdAt <;> cases prs <;> cases name <;> cases url <;>
    simp [recordOfRun] at h
  rename_i t pr rest w u
  cases hn : pr.Number with
  | none => simp [hn] at h
  | some n =>
    simp only [hn] at h
    by_cases hb : t < cutoffTime
    · simp [hb] at h
    · simp only [hb, if_false, Option.some.injEq] at h
      rw [← h]
      exact hb

theorem builtRecords_not_before (gw : Gateway) (owner : String) (cutoffTime : Time)
    (repos : List Repository) (log : List Call) :
    ∀ r ∈ builtRecords gw owner cutoffTime repos log, ¬ r.StartedAt < cutoffTime := by
  induction repos generalizing log with
  | nil => simp [builtRecords]
  | cons repo rest ih =>
    obtain ⟨name⟩ := repo
    cases name with
    | none => simp [builtRecords]
    | some name =>
      intro r hr
      simp only [builtRecords, List.mem_append] at hr
      rcases hr with hr | hr
      · cases hl : gw.ListRepositoryWorkflowRuns log owner name scanOpts with
        | error e => rw [hl] at hr; simp at hr
        | ok runs =>
          rw [hl] at hr
          obtain ⟨run, _, hrun⟩ := List.mem_filterMap.mp hr
          exact recordOfRun_not_before owner name cutoffTime run r hrun
      · exact ih _ r hr

theorem goAddDate_constant_offset (zone : Zone) (c : Int) (t : Time) (days : Int)
    (h : ∀ sec, (zone sec).offset = c) :
    goAddDate zone t days = t + days * nanosPerDay := by
  have hr : ∀ wall, resolveOffset zone wall = c := by
    intro wall
    unfold resolveOffset
    split <;> simp [h]
  simp only [goAddDate, wallSeconds, hr, h, nanosPerDay, secondsPerDay, nanosPerSecond]
  show @Eq Int _ _
  omega

theorem goAddDate_zero_of_resolve (zone : Zone) (t : Time)
    (h : resolveOffset zone (wallSeconds zone t) = (zone (t / nanosPerSecond)).offset) :
    goAddDate zone t 0 = t := by
  simp only [goAddDate, zero_mul, add_zero, h]
  simp only [wallSeconds, nanosPerSecond]
  show @Eq Int _ _
  omega

theorem wrapInt64_neg (days : Int) (hlo : -(2 ^ 63) < days) (hhi : days < 2 ^ 63) :
    wrapInt64 (-days) = -days := by
  unfold wrapInt64
  norm_num at hlo hhi ⊢
  omega

/-- C2 (as stated, refuted): on a machine in New York at 06:30 UTC of
31 October 1999, in the repeated hour, the scan with `days = 0` computes the
cutoff 05:30 UTC, one hour before the current instant, and returns a run
created at 06:00 UTC, strictly before the current instant.  On the same
machine at 00:00 UTC of 1 January 2000, the scan with `days = 90` computes
the cutoff 23:00 UTC of 2 October 1999 and returns a run created at 23:30
UTC, which is strictly before the instant 90 times 24 hours before now. -/
theorem scan_cutoff_local_calendar_counterexample :
    gwRepeatedHour.Now [Call.listByOrg "acme" 1] = 941351400 * nanosPerSecond ∧
    scanCutoff gwRepeatedHour 0 [Call.listByOrg "acme" 1] = 941347800 * nanosPerSecond ∧
    ListAllFailedWorkflows gwRepeatedHour { owner := "acme" } 0 3 [] =
      some (.ret [("https://github.com/acme/A/pull/5", [recordAtSecond 941349600])],
        singleRepoLog) ∧
    (recordAtSecond 941349600).StartedAt < gwRepeatedHour.Now [Call.listByOrg "acme" 1] ∧
    gwAutumn.Now [Call.listByOrg "acme" 1] = 946684800 * nanosPerSecond ∧
    scanCutoff gwAutumn 90 [Call.listByOrg "acme" 1] = 938905200 * nanosPerSecond ∧
    ListAllFailedWorkflows gwAutumn { owner := "acme" } 90 3 [] =
      some (.ret [("https://github.com/acme/A/pull/5", [recordAtSecond 938907000])],
        singleRepoLog) ∧
    (recordAtSecond 938907000).StartedAt <
      gwAutumn.Now [Call.listByOrg "acme" 1] - 90 * nanosPerDay := by
  refine ⟨rfl, by decide, by decide, by decide, rfl, by decide, by decide, by decide⟩

/-- C2 (amended): every record of the mapping returned by a successful
organization scan has a start time that is not strictly before the cutoff,
the cutoff being computed once, after the repository listing, as
`time.Now().AddDate(0, 0, -days)`: the library moves the local wall-clock
reading of now back by `days` calendar days.  With `days = 0` the cutoff is
the current instant whenever the library resolves the wall-clock reading of
now to the offset now has; and in a zone whose offset never changes the
cutoff is `days` times 24 hours before now. -/
theorem scan_records_not_before_cutoff (gw : Gateway) (g : GitHubClient)
    (days : Int) (fuel : Nat) (log log2 : List Call) (m : FailureMap)
    (h : ListAllFailedWorkflows gw g days fuel log = some (.ret m, log2)) :
    ∃ allRepos log1, collectRepos gw g.owner fuel 1 [] log = some (.ok allRepos, log1) ∧
      (∀ k v, (k, v) ∈ m → ∀ r ∈ v,
        ¬ r.StartedAt < gw.AddDate (gw.Now log1) (wrapInt64 (-days)) ∧
        Before r.StartedAt (scanCutoff gw days log1) = false) ∧
      (days = 0 → ∀ zone : Zone,
        gw.AddDate (gw.Now log1) 0 = goAddDate zone (gw.Now log1) 0 →
        resolveOffset zone (wallSeconds zone (gw.Now log1)) =
          (zone (gw.Now log1 / nanosPerSecond)).offset →
        scanCutoff gw days log1 = gw.Now log1) ∧
      (∀ (zone : Zone) (c : Int), (∀ sec, (zone sec).offset = c) →
        -(2 ^ 63) < days → days < 2 ^ 63 →
        gw.AddDate (gw.Now log1) (-days) = goAddDate zone (gw.Now log1) (-days) →
        scanCutoff gw days log1 = gw.Now log1 - days * nanosPerDay) := by
  have hg := scan_grouped gw g days fuel log log2 m h
  unfold ListAllFailedWorkflows at h
  unfold builtDuringScan at hg
  cases hc : collectRepos gw g.owner fuel 1 [] log with
  | none => rw [hc] at h; simp at h
  | some res =>
    obtain ⟨r, log1⟩ := res
    cases r with
    | error e => rw [hc] at h; simp at h
    | ok allRepos =>
      rw [hc] at hg
      refine ⟨allRepos, log1, rfl, ?_, ?_, ?_⟩
      · intro k v hm r hr
        obtain ⟨hnd, hget, _, _⟩ := hg
        have hv := mem_mapGet_of_nodup m hnd k v hm
        rw [← hv, hget k] at hr
        have hb := builtRecords_not_before gw g.owner _ allRepos log1 r (List.mem_filter.mp hr).1
        exact ⟨hb, by simpa [Before] using hb⟩
      · intro hd zone hz hres
        subst hd
        have hw : wrapInt64 (-0) = 0 := by decide
        rw [scanCutoff, hw, hz]
        exact goAddDate_zero_of_resolve zone _ hres
      · intro zone c hconst hlo hhi hz
        rw [scanCutoff, wrapInt64_neg days hlo hhi, hz,
          goAddDate_constant_offset zone c _ _ hconst]
        ring

/-- C2 (amended, instance): in the scan of the demonstration organization, on
a machine in UTC, with a window of 7 days, the cutoff is day 93 and the
ten-day-old run is left out. -/
theorem scan_records_not_before_cutoff_witness :
    ListAllFailedWorkflows gwDemo { owner := "acme" } 7 3 [] =
      some (.ret demoMap, demoLog) ∧
    scanCutoff gwDemo 7 [Call.listByOrg "acme" 1] = 93 * day ∧
    ∃ allRepos log1,
      collectRepos gwDemo "acme" 3 1 [] [] = some (.ok allRepos, log1) ∧
      (∀ k v, (k, v) ∈ demoMap → ∀ r ∈ v,
        ¬ r.StartedAt < gwDemo.AddDate (gwDemo.Now log1) (wrapInt64 (-7)) ∧
        Before r.StartedAt (scanCutoff gwDemo 7 log1) = false) :=
  ⟨by decide, by decide,
    match scan_records_not_before_cutoff gwDemo { owner := "acme" } 7 3 [] demoLog demoMap
      (by decide) with
    | ⟨allRepos, log1, h1, h2, _⟩ => ⟨allRepos, log1, h1, h2⟩⟩

/-! ## One run, one record -/

theorem mapSize_mapSet_append (m : FailureMap) (k : String) (r : WorkflowFailure) :
    mapSize (mapSet m k (mapGet m k ++ [r])) = mapSize m + 1 := by
  unfold mapSize
  rw [(mapRecords_mapSet_perm m k r).length_eq]
  simp

/-- C3 (the code at the failing input): `unnamedRun` passes the time-window
filter and reports pull request 5, but carries no workflow name; the loop
body builds no record for it and ends in a nil dereference, where the claim
promises exactly one record for pull request 5. -/
theorem processRun_unnamed_run_builds_no_record :
    unnamedRun.CreatedAt = some (99 * day) ∧ ¬ (99 * day < 93 * day) ∧
    unnamedRun.PullRequests = [{ Number := some 5, Head := none }] ∧
    processRun "acme" "A" (93 * day) [] unnamedRun = .fault .nilDereference ∧
    ¬ ∃ m2, processRun "acme" "A" (93 * day) [] unnamedRun = .ret m2 := by
  refine ⟨rfl, by decide, rfl, by decide, ?_⟩
  rintro ⟨m2, h⟩
  have hn : processRun "acme" "A" (93 * day) [] unnamedRun = .fault .nilDereference := by decide
  rw [hn] at h
  cases h

/-- On the runs whose fields are present the loop body does what C3 says:
for a run that passes the time-window filter, no record is produced when the
run reports no associated pull request; when it reports one or more and the
number of the first one, the workflow name and the run URL are present,
exactly one record is appended, to the bucket of the URL
`https://github.com/<owner>/<repo>/pull/<number>` of the first pull request,
with that number as PRNumber; every other bucket is left as it was. -/
theorem processRun_in_window (owner repoName : String) (cutoffTime : Time)
    (m : FailureMap) (run : WorkflowRun) (createdAt : Time)
    (hc : run.CreatedAt = some createdAt) (hw : ¬ createdAt < cutoffTime) :
    (run.PullRequests = [] → processRun owner repoName cutoffTime m run = .ret m) ∧
    (∀ pr rest number workflow url,
      run.PullRequests = pr :: rest → pr.Number = some number →
      run.Name = some workflow → run.HTMLURL = some url →
      ∃ m2 r, processRun owner repoName cutoffTime m run = .ret m2 ∧
        r = { Repo := repoName, PRNumber := number, Workflow := workflow,
              StartedAt := createdAt, URL := url,
              PRURL := prURLOf owner repoName number } ∧
        r.PRURL = "https://github.com/" ++ owner ++ "/" ++ repoName ++ "/pull/"
          ++ toString number ∧
        mapGet m2 r.PRURL = mapGet m r.PRURL ++ [r] ∧
        (∀ k, k ≠ r.PRURL → mapGet m2 k = mapGet m k) ∧
        mapSize m2 = mapSize m + 1) := by
  constructor
  · intro hp
    simp [processRun, hc, hp, Before, hw]
  · intro pr rest number workflow url hp hn hname hurl
    refine ⟨mapSet m (prURLOf owner repoName number)
      (mapGet m (prURLOf owner repoName number) ++
        [WorkflowFailure.mk repoName number workflow createdAt url
          (prURLOf owner repoName number)]),
      WorkflowFailure.mk repoName number workflow createdAt url
          (prURLOf owner repoName number), ?_, rfl, rfl, ?_, ?_, ?_⟩
    · simp [processRun, hc, hp, hn, hname, hurl, Before, hw]
    · simp [mapGet_mapSet]
    · intro k hk
      rw [mapGet_mapSet]
      simp only [ite_eq_right_iff]
      intro h
      exact absurd h.symm hk
    · exact mapSize_mapSet_append m _ _

/-- An instance of `processRun_in_window`: a run of day 98 linked to pull
requests 5 and 9 adds one record, for pull request 5, to an empty map. -/
theorem processRun_in_window_witness :
    ∃ m2 r, processRun "acme" "A" (93 * day) [] (runAt (98 * day) "build" [5, 9]) = .ret m2 ∧
      r = { Repo := "A", PRNumber := 5, Workflow := "build",
            StartedAt := 98 * day, URL := "https://github.com/acme/runs/build",
            PRURL := prURLOf "acme" "A" 5 } ∧
      r.PRURL = "https://github.com/" ++ "acme" ++ "/" ++ "A" ++ "/pull/" ++ toString (5 : Int) ∧
      mapGet m2 r.PRURL = mapGet [] r.PRURL ++ [r] ∧
      (∀ k, k ≠ r.PRURL → mapGet m2 k = mapGet [] k) ∧
      mapSize m2 = mapSize [] + 1 :=
  (processRun_in_window "acme" "A" (93 * day) [] (runAt (98 * day) "build" [5, 9])
    (98 * day) rfl (by decide)).2
    { Number := some 5, Head := none } [{ Number := some 9, Head := none }] 5 "build"
    "https://github.com/acme/runs/build" rfl rfl rfl (by decide)

/-! ## Failed run listings are skipped -/

theorem processRun_ne_err (owner repoName : String) (cutoffTime : Time)
    (m : FailureMap) (run : WorkflowRun) (e : Error) :
    processRun owner repoName cutoffTime m run ≠ .err e := by
  unfold processRun
  repeat' split
  all_goals simp

theorem processRuns_ne_err (owner repoName : String) (cutoffTime : Time)
    (runs : List WorkflowRun) (m : FailureMap) (e : Error) :
    processRuns owner repoName cutoffTime m runs ≠ .err e := by
  induction runs generalizing m with
  | nil => simp [processRuns]
  | cons run rest ih =>
    simp only [processRuns]
    cases hp : processRun owner repoName cutoffTime m run with
    | ret m1 => exact ih m1
    | err e1 => exact absurd hp (processRun_ne_err owner repoName cutoffTime m run e1)
    | fault f => simp

theorem scanRepos_ne_err (gw : Gateway) (owner : String) (cutoffTime : Time)
    (repos : List Repository) (m : FailureMap) (log : List Call) (e : Error) :
    (scanRepos gw owner cutoffTime repos m log).1 ≠ .err e := by
  induction repos generalizing m log with
  | nil => simp [scanRepos]
  | cons repo rest ih =>
    obtain ⟨name⟩ := repo
    cases name with
    | none => simp [scanRepos]
    | some name =>
      simp only [scanRepos]
      cases hl : gw.ListRepositoryWorkflowRuns log owner name scanOpts with
      | error e1 => exact ih m _
      | ok runs =>
        dsimp only
        cases hp : processRuns owner name cutoffTime m runs with
        | ret m1 => exact ih m1 _
        | err e1 => exact absurd hp (processRuns_ne_err owner name cutoffTime runs m e1)
        | fault f => simp

theorem scanRepos_skipFailed (gw : Gateway) (owner : String) (cutoffTime : Time)
    (repos : List Repository) (m : FailureMap) (log : List Call) :
    scanRepos (skipFailed gw) owner cutoffTime repos m log =
      scanRepos gw owner cutoffTime repos m log := by
  induction repos generalizing m log with
  | nil => simp [scanRepos]
  | cons repo rest ih =>
    obtain ⟨name⟩ := repo
    cases name with
    | none => simp [scanRepos]
    | some name =>
      simp only [scanRepos, skipFailed]
      cases hl : gw.ListRepositoryWorkflowRuns log owner name scanOpts with
      | error e1 =>
        dsimp only
        simp only [processRuns]
        exact ih m _
      | ok runs =>
        dsimp only
        cases hp : processRuns owner name cutoffTime m runs with
        | ret m1 => exact ih m1 _
        | err e1 => rfl
        | fault f => rfl

theorem collectRepos_skipFailed (gw : Gateway) (owner : String) (fuel : Nat)
    (page : Int) (acc : List Repository) (log : List Call) :
    collectRepos (skipFailed gw) owner fuel page acc log =
      collectRepos gw owner fuel page acc log := by
  induction fuel generalizing page acc log with
  | zero => simp [collectRepos]
  | succ n ih =>
    simp only [collectRepos, skipFailed]
    cases hl : gw.ListByOrg log owner page with
    | error e => rfl
    | ok res =>
      obtain ⟨repos, nextPage⟩ := res
      dsimp only
      by_cases hz : nextPage = 0
      · simp [hz]
      · simp only [hz, if_false]
        exact ih nextPage _ _

theorem processRun_present (owner repoName : String) (cutoffTime : Time)
    (m : FailureMap) (run : WorkflowRun) (h : DerefsPresent cutoffTime run = true) :
    ∃ m2, processRun owner repoName cutoffTime m run = .ret m2 := by
  unfold DerefsPresent at h
  cases hc : run.CreatedAt with
  | none => simp [hc] at h
  | some createdAt =>
    by_cases hb : createdAt < cutoffTime
    · exact ⟨m, by simp [processRun, hc, Before, hb]⟩
    · cases hp : run.PullRequests with
      | nil => exact ⟨m, by simp [processRun, hc, Before, hb, hp]⟩
      | cons pr rest =>
        simp only [hc, hb, if_false, hp, Bool.and_eq_true] at h
        obtain ⟨⟨hn, hname⟩, hurl⟩ := h
        obtain ⟨n, hn⟩ := Option.isSome_iff_exists.mp hn
        obtain ⟨w, hname⟩ := Option.isSome_iff_exists.mp hname
        obtain ⟨u, hurl⟩ := Option.isSome_iff_exists.mp hurl
        refine ⟨mapSet m (prURLOf owner repoName n)
          (mapGet m (prURLOf owner repoName n) ++
            [WorkflowFailure.mk repoName n w createdAt u (prURLOf owner repoName n)]), ?_⟩
        simp [processRun, hc, Before, hb, hp, hn, hname, hurl]

theorem processRuns_present (owner repoName : String) (cutoffTime : Time)
    (runs : List WorkflowRun) (m : FailureMap)
    (h : ∀ run ∈ runs, DerefsPresent cutoffTime run = true) :
    ∃ m2, processRuns owner repoName cutoffTime m runs = .ret m2 := by
  induction runs generalizing m with
  | nil => exact ⟨m, rfl⟩
  | cons run rest ih =>
    obtain ⟨m1, h1⟩ := processRun_present owner repoName cutoffTime m run
      (h run (List.mem_cons_self _ _))
    obtain ⟨m2, h2⟩ := ih m1 (fun r hr => h r (List.mem_cons_of_mem _ hr))
    exact ⟨m2, by simp [processRuns, h1, h2]⟩

theorem scanRepos_present (gw : Gateway) (owner : String) (cutoffTime : Time)
    (repos : List Repository) (m : FailureMap) (log : List Call)
    (hnames : ∀ repo ∈ repos, repo.Name ≠ none)
    (hruns : ∀ lg name runs, gw.ListRepositoryWorkflowRuns lg owner name scanOpts = .ok runs →
      ∀ run ∈ runs, DerefsPresent cutoffTime run = true) :
    ∃ m2 log2, scanRepos gw owner cutoffTime repos m log = (.ret m2, log2) := by
  induction repos generalizing m log with
  | nil => exact ⟨m, log, rfl⟩
  | cons repo rest ih =>
    obtain ⟨name, hname⟩ := Option.ne_none_iff_exists'.mp (hnames repo (List.mem_cons_self _ _))
    have hrest : ∀ r ∈ rest, r.Name ≠ none := fun r hr => hnames r (List.mem_cons_of_mem _ hr)
    simp only [scanRepos, hname]
    cases hl : gw.ListRepositoryWorkflowRuns log owner name scanOpts with
    | error e1 => exact ih m _ hrest
    | ok runs =>
      dsimp only
      obtain ⟨m1, h1⟩ := processRuns_present owner name cutoffTime runs m (hruns log name runs hl)
      rw [h1]
      exact ih m1 _ hrest

/-- A scan without any failed run listing aborts on the same run: the
repository listing of `gwUnnamed` is non-empty and its run listing succeeds,
yet the scan ends in a nil dereference on the run without a workflow name. -/
theorem scan_nil_name_counterexample :
    collectRepos gwUnnamed "acme" 3 1 [] [] =
      some (.ok [{ Name := some "A" }], [Call.listByOrg "acme" 1]) ∧
    ListAllFailedWorkflows gwUnnamed { owner := "acme" } 7 3 [] =
      some (.fault .nilDereference,
        [Call.listByOrg "acme" 1, Call.listRepositoryWorkflowRuns "acme" "A" scanOpts]) :=
  ⟨rfl, by decide⟩

/-- C4 (the code at the failing input): the listing of `gwFailingThenUnnamed`
holds the repositories `B` and `A`; the run listing of `B` fails and is
skipped, the one of `A` succeeds with a run inside the window, linked to pull
request 5, without a workflow name.  The scan does not return success: it ends
in a nil dereference after the three calls, and so does the scan in which the
failed listing of `B` is treated as a listing of no runs. -/
theorem scan_failed_listing_then_nil_dereference :
    collectRepos gwFailingThenUnnamed "acme" 3 1 [] [] =
      some (.ok [{ Name := some "B" }, { Name := some "A" }], [Call.listByOrg "acme" 1]) ∧
    gwFailingThenUnnamed.ListRepositoryWorkflowRuns [Call.listByOrg "acme" 1] "acme" "B"
      scanOpts = .error "server error" ∧
    ListAllFailedWorkflows gwFailingThenUnnamed { owner := "acme" } 7 3 [] =
      some (.fault .nilDereference,
        [Call.listByOrg "acme" 1, Call.listRepositoryWorkflowRuns "acme" "B" scanOpts,
         Call.listRepositoryWorkflowRuns "acme" "A" scanOpts]) ∧
    ListAllFailedWorkflows (skipFailed gwFailingThenUnnamed) { owner := "acme" } 7 3 [] =
      some (.fault .nilDereference,
        [Call.listByOrg "acme" 1, Call.listRepositoryWorkflowRuns "acme" "B" scanOpts,
         Call.listRepositoryWorkflowRuns "acme" "A" scanOpts]) :=
  ⟨rfl, rfl, by decide, by decide⟩

theorem processRun_ret_present (owner repoName : String) (cutoffTime : Time)
    (m m2 : FailureMap) (run : WorkflowRun)
    (h : processRun owner repoName cutoffTime m run = .ret m2) :
    DerefsPresent cutoffTime run = true := by
  obtain ⟨name, conclusion, createdAt, url, prs⟩ := run
  cases createdAt with
  | none => simp [processRun] at h
  | some t =>
    by_cases hb : t < cutoffTime
    · simp [DerefsPresent, hb]
    · cases prs with
      | nil => simp [DerefsPresent, hb]
      | cons pr rest =>
        cases hn : pr.Number with
        | none => simp [processRun, Before, hb, hn] at h
        | some n =>
          cases name with
          | none => simp [processRun, Before, hb, hn] at h
          | some w =>
            cases url with
            | none => simp [processRun, Before, hb, hn] at h
            | some u => simp [DerefsPresent, hb, hn]

theorem processRuns_ret_iff (owner repoName : String) (cutoffTime : Time)
    (runs : List WorkflowRun) (m : FailureMap) :
    (∃ m2, processRuns owner repoName cutoffTime m runs = .ret m2) ↔
      runs.all (DerefsPresent cutoffTime) = true := by
  constructor
  · intro h
    induction runs generalizing m with
    | nil => rfl
    | cons run rest ih =>
      obtain ⟨m2, h2⟩ := h
      simp only [processRuns] at h2
      cases hp : processRun owner repoName cutoffTime m run with
      | ret m1 =>
        rw [hp] at h2
        simp only [List.all_cons, Bool.and_eq_true]
        exact ⟨processRun_ret_present owner repoName cutoffTime m m1 run hp, ih m1 ⟨m2, h2⟩⟩
      | err e => rw [hp] at h2; simp at h2
      | fault f => rw [hp] at h2; simp at h2
  · intro h
    apply processRuns_present
    intro run hr
    exact List.all_eq_true.mp h run hr

theorem scanRepos_ret_iff (gw : Gateway) (owner : String) (cutoffTime : Time)
    (repos : List Repository) (m : FailureMap) (log : List Call) :
    (∃ m2 log2, scanRepos gw owner cutoffTime repos m log = (.ret m2, log2)) ↔
      ScanPresent gw owner cutoffTime repos log = true := by
  induction repos generalizing m log with
  | nil => simp [ScanPresent, scanRepos]
  | cons repo rest ih =>
    obtain ⟨name⟩ := repo
    cases name with
    | none => simp [ScanPresent, scanRepos]
    | some name =>
      simp only [ScanPresent, scanRepos, Bool.and_eq_true]
      cases hl : gw.ListRepositoryWorkflowRuns log owner name scanOpts with
      | error e =>
        simp only [true_and]
        exact ih m _
      | ok runs =>
        dsimp only
        rw [← processRuns_ret_iff owner name cutoffTime runs m]
        cases hp : processRuns owner name cutoffTime m runs with
        | ret m1 =>
          rw [ih m1 _]
          simp
        | err e => simp
        | fault f => simp

/-- Apart from the missing nil checks the scan does what C4 says: when the
repository listing is non-empty, whatever the run-listing calls answer, the
organization scan never returns an error, and its outcome and calls are those
obtained when every failed run listing is treated as a listing of no runs; it
returns success (a mapping) exactly when every listed repository has a name
and every run returned during the scan has the fields the loop dereferences. -/
theorem scan_skips_failed_run_listings (gw : Gateway) (g : GitHubClient)
    (days : Int) (fuel : Nat) (log log1 : List Call) (allRepos : List Repository)
    (hc : collectRepos gw g.owner fuel 1 [] log = some (.ok allRepos, log1))
    (hne : allRepos ≠ []) :
    (∀ e log2, ListAllFailedWorkflows gw g days fuel log ≠ some (.err e, log2)) ∧
    ListAllFailedWorkflows gw g days fuel log =
      ListAllFailedWorkflows (skipFailed gw) g days fuel log ∧
    ((∃ m log2, ListAllFailedWorkflows gw g days fuel log = some (.ret m, log2)) ↔
      ScanPresent gw g.owner (scanCutoff gw days log1) allRepos log1 = true) := by
  have hlen : ¬ allRepos.length = 0 := by
    intro h
    exact hne (List.length_eq_zero.mp h)
  have hgw : ListAllFailedWorkflows gw g days fuel log =
      some (scanRepos gw g.owner (scanCutoff gw days log1) allRepos [] log1) := by
    simp [ListAllFailedWorkflows, hc, hlen]
  refine ⟨?_, ?_, ?_⟩
  · intro e log2 h
    rw [hgw] at h
    have h1 := scanRepos_ne_err gw g.owner (scanCutoff gw days log1) allRepos [] log1 e
    rw [Option.some.inj h] at h1
    exact h1 rfl
  · have hc2 : collectRepos (skipFailed gw) g.owner fuel 1 [] log = some (.ok allRepos, log1) := by
      rw [collectRepos_skipFailed, hc]
    have hnow : scanCutoff (skipFailed gw) days log1 = scanCutoff gw days log1 := rfl
    rw [hgw]
    simp [ListAllFailedWorkflows, hc2, hlen, hnow, scanRepos_skipFailed]
  · rw [← scanRepos_ret_iff gw g.owner (scanCutoff gw days log1) allRepos [] log1, hgw]
    simp

theorem gwScenario_runs_present (lg : List Call) (name : String) (runs : List WorkflowRun)
    (h : gwScenario.ListRepositoryWorkflowRuns lg "acme" name scanOpts = .ok runs) :
    ∀ run ∈ runs, DerefsPresent (scanCutoff gwScenario 7 [Call.listByOrg "acme" 1]) run = true := by
  intro run hr
  simp only [gwScenario] at h
  split at h
  · cases h
    simp only [List.mem_singleton] at hr
    subst hr
    decide
  · cases h

/-- An instance of `scan_skips_failed_run_listings`, the scenario of the
specification: repository `A` with one two-day-old failed run on pull request
5, repository `B` whose run listing fails; the scan with a window of 7 days
returns the mapping with the single entry for pull request 5 of `A`, and
returns no error. -/
theorem scan_skips_failed_run_listings_witness :
    ListAllFailedWorkflows gwScenario { owner := "acme" } 7 3 [] =
      some (.ret scenarioMap, demoLog) ∧
    (∀ e log2,
      ListAllFailedWorkflows gwScenario { owner := "acme" } 7 3 [] ≠ some (.err e, log2)) ∧
    ListAllFailedWorkflows gwScenario { owner := "acme" } 7 3 [] =
      ListAllFailedWorkflows (skipFailed gwScenario) { owner := "acme" } 7 3 [] ∧
    ∃ m log2, ListAllFailedWorkflows gwScenario { owner := "acme" } 7 3 [] =
      some (.ret m, log2) :=
  ⟨by decide,
    (scan_skips_failed_run_listings gwScenario { owner := "acme" } 7 3 []
      [Call.listByOrg "acme" 1] [{ Name := some "A" }, { Name := some "B" }]
      rfl (by decide)).1,
    (scan_skips_failed_run_listings gwScenario { owner := "acme" } 7 3 []
      [Call.listByOrg "acme" 1] [{ Name := some "A" }, { Name := some "B" }]
      rfl (by decide)).2.1,
    (scan_skips_failed_run_listings gwScenario { owner := "acme" } 7 3 []
      [Call.listByOrg "acme" 1] [{ Name := some "A" }, { Name := some "B" }]
      rfl (by decide)).2.2.mpr (by decide)⟩

/-! ## The single-PR check -/

theorem splitChars_of_not_mem (sep : Char) (l : List Char) (h : sep ∉ l) :
    splitChars sep l = [l] := by
  induction l with
  | nil => rfl
  | cons c cs ih =>
    have hc : ¬ c = sep := fun hc => h (by simp [hc])
    have hcs : sep ∉ cs := fun hm => h (List.mem_cons_of_mem _ hm)
    simp [splitChars, hc, ih hcs]

theorem splitChars_append_sep (sep : Char) (xs ys : List Char) (h : sep ∉ xs) :
    splitChars sep (xs ++ sep :: ys) = xs :: splitChars sep ys := by
  induction xs with
  | nil => simp [splitChars]
  | cons c cs ih =>
    have hc : ¬ c = sep := fun hc => h (by simp [hc])
    have hcs : sep ∉ cs := fun hm => h (List.mem_cons_of_mem _ hm)
    simp [splitChars, hc, ih hcs]

theorem splitSlash_pair (x r : String) (hx : '/' ∉ x.data) (hr : '/' ∉ r.data) :
    splitSlash (x ++ "/" ++ r) = [x, r] := by
  have hd : (x ++ "/" ++ r).data = x.data ++ '/' :: r.data := by
    simp [String.data_append]
  simp [splitSlash, hd, splitChars_append_sep _ _ _ hx, splitChars_of_not_mem _ _ hr]

theorem pair_ne_empty (x r : String) : x ++ "/" ++ r ≠ "" := by
  intro h
  have hd : (x ++ "/" ++ r).data = x.data ++ '/' :: r.data := by
    simp [String.data_append]
  rw [h] at hd
  simp at hd

theorem checkParsed_client (gw : Gateway) (g : Main.GitHubClient) (prNumber repo : String)
    (log : List Call) : (Main.checkParsed gw g prNumber repo log).client = g := by
  unfold Main.checkParsed
  cases Atoi prNumber with
  | error e => rfl
  | ok n =>
    dsimp only
    cases gw.PullRequestsGet log g.owner repo n with
    | error e => rfl
    | ok pr =>
      dsimp only
      cases pr.Head with
      | none => rfl
      | some head =>
        dsimp only
        cases head.Ref with
        | none => rfl
        | some ref =>
          dsimp only
          cases gw.ListRepositoryWorkflowRuns (log ++ [Call.pullRequestsGet g.owner repo n])
            g.owner repo (checkOpts ref) with
          | error e => rfl
          | ok runs =>
            dsimp only
            split <;> rfl

theorem checkParsed_calls (gw : Gateway) (g : Main.GitHubClient) (prNumber repo : String)
    (log : List Call) :
    ∃ calls, (Main.checkParsed gw g prNumber repo log).log = log ++ calls ∧
      (∀ c ∈ calls, c.owner = g.owner ∧ c.repo = some repo) ∧
      (∀ n, Atoi prNumber = .ok n →
        ∃ more, calls = Call.pullRequestsGet g.owner repo n :: more) ∧
      (∀ e, Atoi prNumber = .error e → calls = []) := by
  unfold Main.checkParsed
  cases ha : Atoi prNumber with
  | error e => exact ⟨[], by simp⟩
  | ok n =>
    dsimp only
    cases hp : gw.PullRequestsGet log g.owner repo n with
    | error e => exact ⟨[Call.pullRequestsGet g.owner repo n], by simp [Call.owner, Call.repo]⟩
    | ok pr =>
      dsimp only
      cases hh : pr.Head with
      | none => exact ⟨[Call.pullRequestsGet g.owner repo n], by simp [Call.owner, Call.repo]⟩
      | some head =>
        dsimp only
        cases hr : head.Ref with
        | none => exact ⟨[Call.pullRequestsGet g.owner repo n], by simp [Call.owner, Call.repo]⟩
        | some ref =>
          dsimp only
          refine ⟨[Call.pullRequestsGet g.owner repo n,
            Call.listRepositoryWorkflowRuns g.owner repo (checkOpts ref)], ?_, ?_, ?_, ?_⟩
          · cases gw.ListRepositoryWorkflowRuns (log ++ [Call.pullRequestsGet g.owner repo n])
              g.owner repo (checkOpts ref) with
            | error e => simp
            | ok runs =>
              dsimp only
              split <;> simp
          · simp [Call.owner, Call.repo]
          · intro n2 hn2
            cases hn2
            exact ⟨_, rfl⟩
          · intro e he
            cases he

theorem getFailedWorkflows_calls (gw : Gateway) (g : GitHubClient) (prNumber repo : String)
    (log : List Call) :
    ∃ calls, (GetFailedWorkflows gw g prNumber repo log).2 = log ++ calls ∧
      (∀ c ∈ calls, c.owner = g.owner ∧ c.repo = some repo) ∧
      (∀ n, repo ≠ "" → Atoi prNumber = .ok n →
        ∃ more, calls = Call.pullRequestsGet g.owner repo n :: more) := by
  unfold GetFailedWorkflows
  by_cases hrepo : repo = ""
  · exact ⟨[], by simp [hrepo]⟩
  · simp only [hrepo, if_false]
    cases ha : Atoi prNumber with
    | error e => exact ⟨[], by simp⟩
    | ok n =>
      dsimp only
      cases hp : gw.PullRequestsGet log g.owner repo n with
      | error e => exact ⟨[Call.pullRequestsGet g.owner repo n], by simp [Call.owner, Call.repo]⟩
      | ok pr =>
        dsimp only
        cases hh : pr.Head with
        | none => exact ⟨[Call.pullRequestsGet g.owner repo n], by simp [Call.owner, Call.repo]⟩
        | some head =>
          dsimp only
          cases hr : head.Ref with
          | none =>
            exact ⟨[Call.pullRequestsGet g.owner repo n], by simp [Call.owner, Call.repo]⟩
          | some ref =>
            dsimp only
            refine ⟨[Call.pullRequestsGet g.owner repo n,
              Call.listRepositoryWorkflowRuns g.owner repo (checkOpts ref)], ?_, ?_, ?_⟩
            · cases gw.ListRepositoryWorkflowRuns (log ++ [Call.pullRequestsGet g.owner repo n])
                g.owner repo (checkOpts ref) with
              | error e => simp
              | ok runs => simp
            · simp [Call.owner, Call.repo]
            · intro n2 _ hn2
              cases hn2
              exact ⟨_, rfl⟩

theorem getFailedWorkflows_bare_calls (gw : Gateway) (g : Main.GitHubClient)
    (prNumber repo : String) (log : List Call) (hr : '/' ∉ repo.data) :
    ∃ calls, (Main.GetFailedWorkflows gw g prNumber repo log).log = log ++ calls ∧
      (∀ c ∈ calls, c.owner = g.owner ∧ c.repo = some repo) ∧
      (Main.GetFailedWorkflows gw g prNumber repo log).client = g := by
  unfold Main.GetFailedWorkflows
  by_cases hrepo : repo = ""
  · exact ⟨[], by simp [hrepo]⟩
  · have hs : splitSlash repo = [repo] := by
      simp [splitSlash, splitChars_of_not_mem _ _ hr]
    simp only [hrepo, if_false, hs]
    obtain ⟨calls, h1, h2, _⟩ := checkParsed_calls gw g prNumber repo log
    exact ⟨calls, h1, h2, checkParsed_client gw g prNumber repo log⟩

/-- C5 (as stated, refuted): the PR numbers `0` and `-5` are not positive
integers, yet with a non-empty repository the check does not fail with the
invalid-input error: it looks the pull request up at the gateway (and for `0`,
which `gwZero` knows, lists the workflow runs and returns success). -/
theorem check_nonpositive_number_counterexample :
    GetFailedWorkflows gwZero { owner := "acme" } "0" "A" [] =
      (.ret (), [Call.pullRequestsGet "acme" "A" 0,
        Call.listRepositoryWorkflowRuns "acme" "A" (checkOpts "main")]) ∧
    GetFailedWorkflows gwZero { owner := "acme" } "-5" "A" [] =
      (.err (.errorGettingPR "not found"), [Call.pullRequestsGet "acme" "A" (-5)]) := by
  constructor <;> decide

/-- C5 (amended): for every pull-request number string that `strconv.Atoi`
rejects (the empty string, a sign alone, a string with a character that is
not a decimal digit after the optional sign, a value outside the 64-bit
range), the single-PR check with a non-empty repository specifier fails with
the invalid-input error and issues no call to the gateway; this holds for the
check of `pkg/github/client.go` and for the one of `github.go`. -/
theorem check_rejects_unparsable_number (gw : Gateway) (g : GitHubClient)
    (gm : Main.GitHubClient) (prNumber repo : String) (log : List Call) (e : AtoiError)
    (hrepo : repo ≠ "") (ha : Atoi prNumber = .error e) :
    GetFailedWorkflows gw g prNumber repo log = (.err (.invalidPRNumber e), log) ∧
    (Main.GetFailedWorkflows gw gm prNumber repo log).outcome = .err (.invalidPRNumber e) ∧
    (Main.GetFailedWorkflows gw gm prNumber repo log).log = log := by
  refine ⟨by simp [GetFailedWorkflows, hrepo, ha], ?_, ?_⟩
  · unfold Main.GetFailedWorkflows
    simp only [hrepo, if_false]
    split <;> simp [Main.checkParsed, ha]
  · unfold Main.GetFailedWorkflows
    simp only [hrepo, if_false]
    split <;> simp [Main.checkParsed, ha]

/-- C5 (amended, instance): the number `abc` with the repository `A`. -/
theorem check_rejects_unparsable_number_witness :
    Atoi "abc" = .error .malformed ∧ Atoi "" = .error .malformed ∧
    GetFailedWorkflows gwZero { owner := "acme" } "abc" "A" [] =
      (.err (.invalidPRNumber .malformed), []) ∧
    (Main.GetFailedWorkflows gwZero { owner := "acme" } "abc" "A" []).outcome =
      .err (.invalidPRNumber .malformed) ∧
    (Main.GetFailedWorkflows gwZero { owner := "acme" } "abc" "A" []).log = [] :=
  ⟨rfl, rfl,
    check_rejects_unparsable_number gwZero { owner := "acme" } { owner := "acme" }
      "abc" "A" [] .malformed (by decide) rfl⟩

/-- C6 (as stated, refuted): after the check of `github.go` is run with the
specifier `X/R` on a client configured with owner `O`, the client's owner is
`X`, and a following check with the bare name `R2` queries owner `X`; the
check of `pkg/github/client.go` does not split the specifier and queries
owner `O` with the repository name `X/R`. -/
theorem owner_override_persists_counterexample :
    (Main.GetFailedWorkflows gwZero { owner := "O" } "0" "X/R" []).client.owner = "X" ∧
    (Main.GetFailedWorkflows gwZero { owner := "O" } "0" "X/R" []).log =
      [Call.pullRequestsGet "X" "R" 0,
       Call.listRepositoryWorkflowRuns "X" "R" (checkOpts "main")] ∧
    (Main.GetFailedWorkflows gwZero
      (Main.GetFailedWorkflows gwZero { owner := "O" } "0" "X/R" []).client "0" "R2" []).log =
      [Call.pullRequestsGet "X" "R2" 0,
       Call.listRepositoryWorkflowRuns "X" "R2" (checkOpts "main")] ∧
    (GetFailedWorkflows gwZero { owner := "O" } "0" "X/R" []).2 =
      [Call.pullRequestsGet "O" "X/R" 0,
       Call.listRepositoryWorkflowRuns "O" "X/R" (checkOpts "main")] := by
  refine ⟨by decide, by decide, by decide, by decide⟩

/-- C6 (amended): for a specifier `X/R` with exactly one slash, the check of
`github.go` sends every gateway request to owner `X` and repository `R`
(first the pull-request lookup, when the number parses) and leaves the
client's owner set to `X`, so that a following check with a bare repository
name queries owner `X`; the check of `pkg/github/client.go` keeps the
configured owner `O` and sends the whole specifier as the repository name. -/
theorem owner_override_is_kept (gw : Gateway) (o x r prNumber : String) (log : List Call)
    (hx : '/' ∉ x.data) (hr : '/' ∉ r.data) :
    (Main.GetFailedWorkflows gw { owner := o } prNumber (x ++ "/" ++ r) log).client.owner = x ∧
    (∃ calls,
      (Main.GetFailedWorkflows gw { owner := o } prNumber (x ++ "/" ++ r) log).log
        = log ++ calls ∧
      (∀ c ∈ calls, c.owner = x ∧ c.repo = some r) ∧
      (∀ n, Atoi prNumber = .ok n → ∃ more, calls = Call.pullRequestsGet x r n :: more)) ∧
    (∀ prNumber2 repo2 log2, '/' ∉ repo2.data →
      ∃ calls,
        (Main.GetFailedWorkflows gw
          (Main.GetFailedWorkflows gw { owner := o } prNumber (x ++ "/" ++ r) log).client
          prNumber2 repo2 log2).log = log2 ++ calls ∧
        ∀ c ∈ calls, c.owner = x ∧ c.repo = some repo2) ∧
    (∃ calls,
      (GetFailedWorkflows gw { owner := o } prNumber (x ++ "/" ++ r) log).2 = log ++ calls ∧
      (∀ c ∈ calls, c.owner = o ∧ c.repo = some (x ++ "/" ++ r)) ∧
      (∀ n, Atoi prNumber = .ok n →
        ∃ more, calls = Call.pullRequestsGet o (x ++ "/" ++ r) n :: more)) := by
  have hmain : Main.GetFailedWorkflows gw { owner := o } prNumber (x ++ "/" ++ r) log =
      Main.checkParsed gw { owner := x } prNumber r log := by
    unfold Main.GetFailedWorkflows
    simp only [pair_ne_empty x r, if_false, splitSlash_pair x r hx hr]
  have hclient := checkParsed_client gw { owner := x } prNumber r log
  refine ⟨by rw [hmain, hclient], ?_, ?_, ?_⟩
  · rw [hmain]
    obtain ⟨calls, h1, h2, h3, _⟩ := checkParsed_calls gw { owner := x } prNumber r log
    exact ⟨calls, h1, h2, h3⟩
  · intro prNumber2 repo2 log2 h2
    rw [hmain, hclient]
    obtain ⟨calls, h1, h3, _⟩ :=
      getFailedWorkflows_bare_calls gw { owner := x } prNumber2 repo2 log2 h2
    exact ⟨calls, h1, h3⟩
  · obtain ⟨calls, h1, h2, h3⟩ :=
      getFailedWorkflows_calls gw { owner := o } prNumber (x ++ "/" ++ r) log
    exact ⟨calls, h1, h2, fun n hn => h3 n (pair_ne_empty x r) hn⟩

/-- C6 (amended, instance): the specifier `X/R` on a client configured with
owner `O`. -/
theorem owner_override_is_kept_witness :
    (Main.GetFailedWorkflows gwZero { owner := "O" } "0" ("X" ++ "/" ++ "R") []).client.owner
      = "X" ∧
    ∃ calls,
      (Main.GetFailedWorkflows gwZero { owner := "O" } "0" ("X" ++ "/" ++ "R") []).log
        = [] ++ calls ∧
      (∀ c ∈ calls, c.owner = "X" ∧ c.repo = some "R") ∧
      (∀ n, Atoi "0" = .ok n → ∃ more, calls = Call.pullRequestsGet "X" "R" n :: more) :=
  ⟨(owner_override_is_kept gwZero "O" "X" "R" "0" [] (by decide) (by decide)).1,
    (owner_override_is_kept gwZero "O" "X" "R" "0" [] (by decide) (by decide)).2.1⟩

/-- C7: with an empty repository specifier and any PR number string, the
single-PR check fails with the error `repository name is required` before any
gateway call: `HandleCheck` returns it without invoking a method of the
client (so does the dispatcher `Run`), and `GetFailedWorkflows` returns it
with the log of gateway calls unchanged. -/
theorem empty_repository_rejected_before_any_call (gw : Gateway) (g : GitHubClient)
    (prNumber : String) (log : List Call) (fuel : Nat) :
    GetFailedWorkflows gw g prNumber "" log = (.err .repositoryNameRequired, log) ∧
    (∀ (σ : Type) (client : Cli.Client σ) (s : σ),
      (Cli.HandleCheck client prNumber "" s).outcome = .err .repositoryNameRequired ∧
      (Cli.HandleCheck client prNumber "" s).invoked = [] ∧
      (Cli.HandleCheck client prNumber "" s).state = s ∧
      Cli.Run client (.check prNumber "") s = some (Cli.HandleCheck client prNumber "" s)) ∧
    (Cli.HandleCheck (Cli.githubClient gw g fuel) prNumber "" log).state = log := by
  refine ⟨by simp [GetFailedWorkflows], ?_, by simp [Cli.HandleCheck]⟩
  intro σ client s
  simp [Cli.HandleCheck, Cli.Run]

/-! ## The repository listing -/

theorem collectRepos_mono (gw : Gateway) (owner : String) (fuel fuel2 : Nat) (page : Int)
    (acc : List Repository) (log : List Call)
    (res : Except String (List Repository) × List Call)
    (h : collectRepos gw owner fuel page acc log = some res) (hle : fuel ≤ fuel2) :
    collectRepos gw owner fuel2 page acc log = some res := by
  induction fuel generalizing fuel2 page acc log with
  | zero => simp [collectRepos] at h
  | succ n ih =>
    obtain ⟨n2, rfl⟩ : ∃ n2, fuel2 = n2 + 1 := ⟨fuel2 - 1, by omega⟩
    simp only [collectRepos] at h ⊢
    cases hl : gw.ListByOrg log owner page with
    | error e =>
      rw [hl] at h
      exact h
    | ok pr =>
      obtain ⟨repos, nextPage⟩ := pr
      rw [hl] at h
      dsimp only at h ⊢
      by_cases hz : nextPage = 0
      · simpa [hz] using h
      · simp only [hz, if_false] at h ⊢
        exact ih n2 nextPage _ _ h (by omega)

theorem collectRepos_log (gw : Gateway) (owner : String) (fuel : Nat) (page : Int)
    (acc : List Repository) (log : List Call)
    (res : Except String (List Repository) × List Call)
    (h : collectRepos gw owner fuel page acc log = some res) :
    ∃ pages : List Int, res.2 = log ++ pages.map (Call.listByOrg owner) := by
  induction fuel generalizing page acc log with
  | zero => simp [collectRepos] at h
  | succ n ih =>
    simp only [collectRepos] at h
    cases hl : gw.ListByOrg log owner page with
    | error e =>
      rw [hl] at h
      simp only [Option.some.injEq] at h
      exact ⟨[page], by simp [← h]⟩
    | ok pr =>
      obtain ⟨repos, nextPage⟩ := pr
      rw [hl] at h
      dsimp only at h
      by_cases hz : nextPage = 0
      · simp only [hz, if_true, Option.some.injEq] at h
        exact ⟨[page], by simp [← h]⟩
      · simp only [hz, if_false] at h
        obtain ⟨pages, hp⟩ := ih nextPage _ _ h
        exact ⟨page :: pages, by simp [hp]⟩

theorem collectRepos_of_servesPages (gw : Gateway) (owner : String)
    (pages : List (List Repository × Int)) (fuel : Nat) (page : Int)
    (acc : List Repository) (log : List Call)
    (hp : ServesPages gw owner page log pages) (hf : pages.length ≤ fuel) :
    collectRepos gw owner fuel page acc log =
      some (.ok (acc ++ allListed pages), log ++ pageCalls owner page pages) := by
  induction pages generalizing fuel page acc log with
  | nil => exact absurd hp (by simp [ServesPages])
  | cons p more ih =>
    obtain ⟨repos, nextPage⟩ := p
    obtain ⟨n, rfl⟩ : ∃ n, fuel = n + 1 := ⟨fuel - 1, by simp at hf; omega⟩
    cases more with
    | nil =>
      simp only [ServesPages] at hp
      obtain ⟨h1, h2⟩ := hp
      simp [collectRepos, h1, h2, allListed, pageCalls]
    | cons p2 rest =>
      simp only [ServesPages] at hp
      obtain ⟨h1, h2, h3⟩ := hp
      have hlen : (p2 :: rest).length ≤ n := by simp at hf ⊢; omega
      have h4 := ih n nextPage (acc ++ repos) (log ++ [Call.listByOrg owner page]) h3 hlen
      simp only [collectRepos, h1, h2, if_false, h4]
      simp [allListed, pageCalls, List.flatMap_cons]

theorem pageCalls_no_run_listing (owner : String) (pages : List (List Repository × Int))
    (page : Int) :
    (pageCalls owner page pages).filter Call.isRunListing = [] ∧
    ∀ c ∈ pageCalls owner page pages, ∃ pg, c = Call.listByOrg owner pg := by
  induction pages generalizing page with
  | nil => simp [pageCalls]
  | cons p more ih =>
    obtain ⟨repos, nextPage⟩ := p
    obtain ⟨h1, h2⟩ := ih nextPage
    refine ⟨by simp [pageCalls, Call.isRunListing, h1], ?_⟩
    intro c hc
    simp only [pageCalls, List.mem_cons] at hc
    rcases hc with rfl | hc
    · exact ⟨page, rfl⟩
    · exact h2 c hc

theorem grouped_nil_built (m : FailureMap) (h : Grouped m []) : m = [] := by
  obtain ⟨_, _, hkeys, _⟩ := h
  cases m with
  | nil => rfl
  | cons p rest =>
    obtain ⟨r, hr, _⟩ := (hkeys p.1).mp (by simp [mapKeys])
    simp at hr

/-- C8: when the gateway answers every page of the repository listing
successfully and the pages hold no repository in total, the organization scan
returns the no-repositories error and no mapping (for every fuel that covers
the pages), having issued exactly the listing requests for those pages and no
workflow-run listing.  This is distinct from the case in which the pages hold
a repository: then the scan never returns an error, and it returns success
with the empty mapping when no record is built. -/
theorem scan_no_repositories (gw : Gateway) (g : GitHubClient) (days : Int)
    (log : List Call) (pages : List (List Repository × Int)) (fuel : Nat)
    (hp : ServesPages gw g.owner 1 log pages) (hz : allListed pages = [])
    (hf : pages.length ≤ fuel) :
    ListAllFailedWorkflows gw g days fuel log =
      some (.err (.noRepositoriesFound g.owner), log ++ pageCalls g.owner 1 pages) ∧
    (log ++ pageCalls g.owner 1 pages).filter Call.isRunListing
      = log.filter Call.isRunListing ∧
    (∀ c ∈ pageCalls g.owner 1 pages, ∃ pg, c = Call.listByOrg g.owner pg) ∧
    (∀ (gw2 : Gateway) (g2 : GitHubClient) (days2 : Int) (log0 : List Call)
      (pages2 : List (List Repository × Int)) (fuel2 : Nat),
      ServesPages gw2 g2.owner 1 log0 pages2 → allListed pages2 ≠ [] →
      pages2.length ≤ fuel2 →
      (∃ res, ListAllFailedWorkflows gw2 g2 days2 fuel2 log0 = some res) ∧
      (∀ e l2, ListAllFailedWorkflows gw2 g2 days2 fuel2 log0 ≠ some (.err e, l2)) ∧
      (ScanPresent gw2 g2.owner (scanCutoff gw2 days2 (log0 ++ pageCalls g2.owner 1 pages2))
          (allListed pages2) (log0 ++ pageCalls g2.owner 1 pages2) = true →
        builtDuringScan gw2 g2 days2 fuel2 log0 = [] →
        ∃ l2, ListAllFailedWorkflows gw2 g2 days2 fuel2 log0 = some (.ret [], l2))) := by
  have hc := collectRepos_of_servesPages gw g.owner pages fuel 1 [] log hp hf
  rw [hz] at hc
  refine ⟨by simp [ListAllFailedWorkflows, hc], ?_, (pageCalls_no_run_listing _ _ _).2, ?_⟩
  · rw [List.filter_append, (pageCalls_no_run_listing _ _ _).1, List.append_nil]
  · intro gw2 g2 days2 log0 pages2 fuel2 hp2 hne hf2
    have hc2 := collectRepos_of_servesPages gw2 g2.owner pages2 fuel2 1 [] log0 hp2 hf2
    simp only [List.nil_append] at hc2
    have hlen : ¬ (allListed pages2).length = 0 := fun hl => hne (List.length_eq_zero.mp hl)
    have hgw : ListAllFailedWorkflows gw2 g2 days2 fuel2 log0 =
        some (scanRepos gw2 g2.owner
          (scanCutoff gw2 days2 (log0 ++ pageCalls g2.owner 1 pages2)) (allListed pages2) []
          (log0 ++ pageCalls g2.owner 1 pages2)) := by
      simp [ListAllFailedWorkflows, hc2, hlen]
    refine ⟨⟨_, hgw⟩, ?_, ?_⟩
    · intro e l2 h
      rw [hgw] at h
      have h1 := scanRepos_ne_err gw2 g2.owner
        (scanCutoff gw2 days2 (log0 ++ pageCalls g2.owner 1 pages2)) (allListed pages2) []
        (log0 ++ pageCalls g2.owner 1 pages2) e
      rw [Option.some.inj h] at h1
      exact h1 rfl
    · intro hpres hbuilt
      obtain ⟨m, l2, hm⟩ := (scanRepos_ret_iff gw2 g2.owner _ (allListed pages2) [] _).mpr hpres
      have hret : ListAllFailedWorkflows gw2 g2 days2 fuel2 log0 = some (.ret m, l2) := by
        rw [hgw, hm]
      have hg := scan_grouped gw2 g2 days2 fuel2 log0 l2 m hret
      rw [hbuilt] at hg
      rw [grouped_nil_built m hg] at hret
      exact ⟨l2, hret⟩

/-- C8 (instance): an organization whose two listing pages are both empty
yields the no-repositories error after the two listing calls; an organization
with the repository `A` on the first page and an empty second page, `A`
having no failed run, yields success with an empty mapping. -/
theorem scan_no_repositories_witness :
    ListAllFailedWorkflows gwEmptyOrg { owner := "acme" } 7 5 [] =
      some (.err (.noRepositoriesFound "acme"),
        [] ++ pageCalls "acme" 1 [([], 2), ([], 0)]) ∧
    pageCalls "acme" 1 [([], 2), ([], 0)] =
      [Call.listByOrg "acme" 1, Call.listByOrg "acme" 2] ∧
    ListAllFailedWorkflows gwSecondPageEmpty { owner := "acme" } 7 5 [] =
      some (.ret [],
        [Call.listByOrg "acme" 1, Call.listByOrg "acme" 2,
         Call.listRepositoryWorkflowRuns "acme" "A" scanOpts]) ∧
    ListAllFailedWorkflows gwQuiet { owner := "acme" } 7 5 [] =
      some (.ret [],
        [Call.listByOrg "acme" 1, Call.listRepositoryWorkflowRuns "acme" "A" scanOpts]) :=
  ⟨(scan_no_repositories gwEmptyOrg { owner := "acme" } 7 [] [([], 2), ([], 0)] 5
      ⟨rfl, by decide, rfl, rfl⟩ rfl (by decide)).1,
    rfl, by decide, by decide⟩

/-! ## The configuration loader -/

/-- C9 (as stated, refuted): with both variables set and non-empty in the
process environment, `Load` (and `NewGitHubClient` of `github.go`) fails when
the `.env` file cannot be read. -/
theorem load_missing_dotenv_counterexample :
    envBoth "GITHUB_TOKEN" = some "t0ken" ∧ envBoth "GITHUB_OWNER" = some "acme" ∧
    ConfigPkg.Load (.error "open .env: no such file or directory") envBoth =
      .error (.errorLoadingDotEnv "open .env: no such file or directory") ∧
    Main.NewGitHubClient (.error "open .env: no such file or directory") envBoth =
      .error (.errorLoadingDotEnv "open .env: no such file or directory") :=
  ⟨rfl, rfl, rfl, rfl⟩

/-- C9 (amended): `Load` fails when the `.env` file cannot be loaded, with an
error naming that file, and otherwise fails exactly when, in the environment
completed by the file, GITHUB_TOKEN or GITHUB_OWNER is unset or empty, with an
error naming the absent variable (the token first); in every other case it
returns both values unchanged.  In particular, when the file loads and both
variables are set and non-empty in the process environment, `Load` returns
the values of the process environment. -/
theorem load_requires_dotenv_and_variables
    (file : Except String (String → Option String)) (env : ConfigPkg.Env) :
    (∀ e, file = .error e → ConfigPkg.Load file env = .error (.errorLoadingDotEnv e)) ∧
    (∀ env1, ConfigPkg.godotenvLoad file env = .ok env1 →
      (ConfigPkg.Getenv env1 "GITHUB_TOKEN" = "" →
        ConfigPkg.Load file env = .error (.envVarRequired "GITHUB_TOKEN")) ∧
      (ConfigPkg.Getenv env1 "GITHUB_TOKEN" ≠ "" → ConfigPkg.Getenv env1 "GITHUB_OWNER" = "" →
        ConfigPkg.Load file env = .error (.envVarRequired "GITHUB_OWNER")) ∧
      (ConfigPkg.Getenv env1 "GITHUB_TOKEN" ≠ "" → ConfigPkg.Getenv env1 "GITHUB_OWNER" ≠ "" →
        ConfigPkg.Load file env =
          .ok { GitHubToken := ConfigPkg.Getenv env1 "GITHUB_TOKEN",
                GitHubOwner := ConfigPkg.Getenv env1 "GITHUB_OWNER" })) ∧
    (∀ defined token owner, file = .ok defined →
      env "GITHUB_TOKEN" = some token → env "GITHUB_OWNER" = some owner →
      token ≠ "" → owner ≠ "" →
      ConfigPkg.Load file env = .ok { GitHubToken := token, GitHubOwner := owner }) ∧
    ((∃ c, ConfigPkg.Load file env = .ok c) ↔
      ∃ env1, ConfigPkg.godotenvLoad file env = .ok env1 ∧
        ConfigPkg.Getenv env1 "GITHUB_TOKEN" ≠ "" ∧
        ConfigPkg.Getenv env1 "GITHUB_OWNER" ≠ "") := by
  refine ⟨?_, ?_, ?_, ?_⟩
  · intro e he
    subst he
    rfl
  · intro env1 h1
    refine ⟨?_, ?_, ?_⟩
    · intro ht
      simp [ConfigPkg.Load, h1, ht]
    · intro ht ho
      simp [ConfigPkg.Load, h1, ht, ho]
    · intro ht ho
      simp [ConfigPkg.Load, h1, ht, ho]
  · intro defined token owner hf ht ho htn hon
    subst hf
    simp [ConfigPkg.Load, ConfigPkg.godotenvLoad, ConfigPkg.Getenv, ht, ho, htn, hon]
  · constructor
    · rintro ⟨c, hc⟩
      cases h1 : ConfigPkg.godotenvLoad file env with
      | error e => simp [ConfigPkg.Load, h1] at hc
      | ok env1 =>
        refine ⟨env1, rfl, ?_, ?_⟩
        · intro ht
          simp [ConfigPkg.Load, h1, ht] at hc
        · intro ho
          by_cases ht : ConfigPkg.Getenv env1 "GITHUB_TOKEN" = ""
          · simp [ConfigPkg.Load, h1, ht] at hc
          · simp [ConfigPkg.Load, h1, ht, ho] at hc
    · rintro ⟨env1, h1, ht, ho⟩
      exact ⟨ConfigPkg.Config.mk (ConfigPkg.Getenv env1 "GITHUB_TOKEN")
        (ConfigPkg.Getenv env1 "GITHUB_OWNER"), by simp [ConfigPkg.Load, h1, ht, ho]⟩

/-- C9 (amended, instance): with a readable `.env` file the values of the
process environment are returned; a token missing from the process
environment is taken from the file; without a token anywhere the error names
GITHUB_TOKEN. -/
theorem load_requires_dotenv_and_variables_witness :
    ConfigPkg.Load (.ok dotEnvFile) envBoth =
      .ok { GitHubToken := "t0ken", GitHubOwner := "acme" } ∧
    ConfigPkg.Load (.ok dotEnvFile) envOwnerOnly =
      .ok { GitHubToken := "fromfile", GitHubOwner := "acme" } ∧
    ConfigPkg.Load (.ok (fun _ => none)) envOwnerOnly =
      .error (.envVarRequired "GITHUB_TOKEN") :=
  ⟨(load_requires_dotenv_and_variables (.ok dotEnvFile) envBoth).2.2.1 dotEnvFile
      "t0ken" "acme" rfl rfl rfl (by decide) (by decide),
    rfl,
    ((load_requires_dotenv_and_variables (.ok (fun _ => none)) envOwnerOnly).2.1
      _ rfl).1 rfl⟩

/-! ## The list presentation -/

theorem sortByStartDesc_perm (v : List WorkflowFailure) :
    List.Perm (Cli.sortByStartDesc v) v :=
  List.perm_insertionSort _ v

theorem sortByStartDesc_sorted (v : List WorkflowFailure) :
    List.Sorted (fun a b : WorkflowFailure => b.StartedAt ≤ a.StartedAt)
      (Cli.sortByStartDesc v) := by
  haveI : IsTotal WorkflowFailure (fun a b => b.StartedAt ≤ a.StartedAt) :=
    ⟨fun a b => le_total b.StartedAt a.StartedAt⟩
  haveI : IsTrans WorkflowFailure (fun a b => b.StartedAt ≤ a.StartedAt) :=
    ⟨fun _ _ _ hab hbc => le_trans hbc hab⟩
  exact List.sorted_insertionSort _ v

theorem sortByStartDesc_head (v : List WorkflowFailure) (latest : WorkflowFailure)
    (others : List WorkflowFailure) (h : Cli.sortByStartDesc v = latest :: others) :
    latest ∈ v ∧ (∀ r ∈ v, r.StartedAt ≤ latest.StartedAt) ∧
      (latest :: others).length = v.length := by
  have hp := sortByStartDesc_perm v
  have hs := sortByStartDesc_sorted v
  rw [h] at hp hs
  refine ⟨hp.subset (List.mem_cons_self _ _), ?_, hp.length_eq⟩
  intro r hr
  rcases List.mem_cons.mp (hp.symm.subset hr) with heq | hmem
  · rw [heq]
  · exact List.rel_of_sorted_cons hs r hmem

/-- The sibling `handleList` does what the specification describes: for a map
without empty buckets it ends normally and prints, per pull request, the
failure with the latest start time and the number of failures. -/
theorem summarize_reports_latest_and_count (m : FailureMap) (out : List Printed)
    (hne : ∀ k v, (k, v) ∈ m → v ≠ []) :
    ∃ latest : List WorkflowFailure,
      Cli.summarize m out =
        (.ret (), out ++ (List.zip m latest).flatMap
          (fun e => summaryLines e.1.1 e.2 e.1.2.length)) ∧
      latest.length = m.length ∧
      ∀ e ∈ List.zip m latest, e.2 ∈ e.1.2 ∧ ∀ r ∈ e.1.2, r.StartedAt ≤ e.2.StartedAt := by
  induction m generalizing out with
  | nil => exact ⟨[], by simp [Cli.summarize]⟩
  | cons p rest ih =>
    obtain ⟨k, v⟩ := p
    cases hs : Cli.sortByStartDesc v with
    | nil =>
      have hp := sortByStartDesc_perm v
      rw [hs] at hp
      exact absurd hp.symm.eq_nil (hne k v (List.mem_cons_self _ _))
    | cons l others =>
      obtain ⟨hmem, hmax, hlen⟩ := sortByStartDesc_head v l others hs
      obtain ⟨latest, h1, h2, h3⟩ := ih
        (out ++ [Printed.prLine k, Printed.repositoryLine l.Repo,
          Printed.latestFailureLine l.Workflow l.StartedAt,
          Printed.totalFailuresLine (l :: others).length, Printed.separator])
        (fun k2 v2 hm => hne k2 v2 (List.mem_cons_of_mem _ hm))
      refine ⟨l :: latest, ?_, by simp [h2], ?_⟩
      · rw [hlen] at h1
        simp only [Cli.summarize, hs, hlen, h1]
        simp [summaryLines, List.flatMap_cons]
      · intro e he
        simp only [List.zip_cons_cons, List.mem_cons] at he
        rcases he with heq | hin
        · subst heq
          exact ⟨hmem, hmax⟩
        · exact h3 e hin

/-- C10 (the code at the failing input): for the scan of `gwAscending`, whose
mapping holds the failures of pull request 5 in the order test (day 97), build
(day 98), `HandleList` — the handler `Run` invokes for `list` — prints both
failures in that stored order, oldest first, and prints neither a latest
failure nor a count, whereas the uncalled `handleList` prints the latest
failure (build, day 98) and the count 2. -/
theorem HandleList_prints_stored_order :
    Cli.Run (Cli.githubClient gwAscending { owner := "acme" } 3) (.list 7) [] =
      Cli.HandleList (Cli.githubClient gwAscending { owner := "acme" } 3) 7 [] ∧
    (Cli.HandleList (Cli.githubClient gwAscending { owner := "acme" } 3) 7 []).map
        (fun h => (h.outcome, h.out)) =
      some (.ret (),
        [Printed.foundRuns 1 7,
         Printed.prLine "https://github.com/acme/A/pull/5",
         Printed.repositoryLine "A", Printed.workflowLine "test",
         Printed.startedLine (97 * day), Printed.urlLine "https://github.com/acme/runs/test",
         Printed.repositoryLine "A", Printed.workflowLine "build",
         Printed.startedLine (98 * day),
         Printed.urlLine "https://github.com/acme/runs/build"]) ∧
    (Cli.handleList (Cli.githubClient gwAscending { owner := "acme" } 3) 7 []).map
        (fun h => (h.outcome, h.out)) =
      some (.ret (),
        [Printed.fetching, Printed.foundPRs 1 7, Printed.separator,
         Printed.prLine "https://github.com/acme/A/pull/5",
         Printed.repositoryLine "A", Printed.latestFailureLine "build" (98 * day),
         Printed.totalFailuresLine 2, Printed.separator]) := by
  refine ⟨rfl, by decide, by decide⟩

/-! ## Record construction and missing values -/

/-- For a run inside the window that reports a pull request, the loop body
ends in a nil dereference exactly when the number of the first pull request,
the workflow name or the run URL is missing; nothing in the loop tests them. -/
theorem processRun_fault_iff (owner repoName : String) (cutoffTime : Time)
    (m : FailureMap) (run : WorkflowRun) (createdAt : Time) (pr : PullRequest)
    (rest : List PullRequest)
    (hc : run.CreatedAt = some createdAt) (hw : ¬ createdAt < cutoffTime)
    (hp : run.PullRequests = pr :: rest) :
    processRun owner repoName cutoffTime m run = .fault .nilDereference ↔
      (pr.Number = none ∨ run.Name = none ∨ run.HTMLURL = none) := by
  cases hn : pr.Number with
  | none => simp [processRun, hc, Before, hw, hp, hn]
  | some n =>
    cases hname : run.Name with
    | none => simp [processRun, hc, Before, hw, hp, hn, hname]
    | some w =>
      cases hurl : run.HTMLURL with
      | none => simp [processRun, hc, Before, hw, hp, hn, hname, hurl]
      | some u => simp [processRun, hc, Before, hw, hp, hn, hname, hurl]

/-- A run without a creation time ends the loop body in a nil dereference,
whatever else it carries. -/
theorem processRun_fault_of_no_creation_time (owner repoName : String)
    (cutoffTime : Time) (m : FailureMap) (run : WorkflowRun)
    (hc : run.CreatedAt = none) :
    processRun owner repoName cutoffTime m run = .fault .nilDereference := by
  simp [processRun, hc]

/-- C11 (the code at the failing input): `unnamedRun` is inside the window of
7 days, reports pull request 5 and carries its creation time and URL, but no
workflow name.  The scan starts to construct its record and ends in a nil
dereference: the loop over the runs of `A` aborts, and so does the command
`list --days 7` run through `Run` and `HandleList`; the same run with a name
yields its record. -/
theorem record_construction_reaches_nil_dereference :
    unnamedRun.CreatedAt = some (99 * day) ∧
    Before (99 * day) (scanCutoff gwUnnamed 7 []) = false ∧
    unnamedRun.PullRequests = [{ Number := some 5, Head := none }] ∧
    unnamedRun.HTMLURL = some "https://github.com/acme/runs/1" ∧
    unnamedRun.Name = none ∧
    processRuns "acme" "A" (scanCutoff gwUnnamed 7 []) [] [unnamedRun] =
      .fault .nilDereference ∧
    (Cli.Run (Cli.githubClient gwUnnamed { owner := "acme" } 3) (.list 7) []).map
        (fun h => (h.outcome, h.state, h.out)) =
      some (.fault .nilDereference,
        [Call.listByOrg "acme" 1, Call.listRepositoryWorkflowRuns "acme" "A" scanOpts],
        []) ∧
    processRuns "acme" "A" (scanCutoff gwUnnamed 7 []) []
        [{ unnamedRun with Name := some "build" }] =
      .ret [("https://github.com/acme/A/pull/5",
        [{ Repo := "A", PRNumber := 5, Workflow := "build", StartedAt := 99 * day,
           URL := "https://github.com/acme/runs/1",
           PRURL := "https://github.com/acme/A/pull/5" }])] := by
  refine ⟨rfl, by decide, rfl, rfl, rfl, by decide, by decide, by decide⟩
